import Mathlib

set_option maxRecDepth 4000

namespace PaperExplainer

/-!
Shallow embedding of the caching / completion-reconciliation core of the
Paper-Explainer repository (src/src/cache.py and src/src/chat_completions.py).

Python values are modelled by `PyVal`; floating-point parameters are not
modelled (numeric parameters are embedded as integers), and a Python object
that the `json` module cannot serialize is modelled by the `obj` constructor.
`json.dumps(kwargs, sort_keys=True)` (used by `CacheResult.make_cache_key`)
is modelled by `canonicalize` followed by `dumpSpaced` (default separators,
`ensure_ascii = True`); pydantic's `completion.json()` is modelled by
`dumpCompact` (compact separators, raw non-ASCII); `json.loads` is modelled
by `parseValue`/`json_loads`.  `hashlib.md5(...).hexdigest()` is modelled by
a full MD5 implementation over byte lists.
-/

/-- Python values appearing in request parameters and JSON payloads.
`obj tag` stands for an arbitrary Python object that is not JSON
serializable. -/
inductive PyVal where
  | null
  | bool (b : Bool)
  | int (n : Int)
  | str (s : String)
  | list (xs : List PyVal)
  | dict (kvs : List (String × PyVal))
  | obj (tag : String)

mutual
/-- Whether the `json` module can serialize the value (no `obj` inside). -/
def serializable : PyVal → Bool
  | .null => true
  | .bool _ => true
  | .int _ => true
  | .str _ => true
  | .list xs => serializableList xs
  | .dict kvs => serializableKvs kvs
  | .obj _ => false

def serializableList : List PyVal → Bool
  | [] => true
  | x :: xs => serializable x && serializableList xs

def serializableKvs : List (String × PyVal) → Bool
  | [] => true
  | (_, v) :: kvs => serializable v && serializableKvs kvs
end

/-- Lexicographic comparison of character lists by code point, as Python
compares strings. -/
def charListLe : List Char → List Char → Bool
  | [], _ => true
  | _ :: _, [] => false
  | a :: as, b :: bs =>
    if a.toNat < b.toNat then true
    else if b.toNat < a.toNat then false
    else charListLe as bs

/-- Python string comparison `a <= b`. -/
def strLeb (a b : String) : Bool := charListLe a.data b.data

/-- Ordering of dictionary items used by `sort_keys=True`: compare keys. -/
def keyLe (a b : String × PyVal) : Prop := strLeb a.1 b.1 = true

instance : DecidableRel keyLe := fun a b =>
  inferInstanceAs (Decidable (strLeb a.1 b.1 = true))

mutual
/-- Recursively sort every dictionary by key, modelling the traversal order
of `json.dumps(..., sort_keys=True)` (Python's `sorted` is a stable sort, as
is insertion sort). -/
def canonicalize : PyVal → PyVal
  | .list xs => .list (canonList xs)
  | .dict kvs => .dict (List.insertionSort keyLe (canonKvs kvs))
  | v => v

def canonList : List PyVal → List PyVal
  | [] => []
  | x :: xs => canonicalize x :: canonList xs

def canonKvs : List (String × PyVal) → List (String × PyVal)
  | [] => []
  | kv :: kvs => (kv.1, canonicalize kv.2) :: canonKvs kvs
end

/-- Lowercase hexadecimal digit for `n < 16`. -/
def hexDigit (n : Nat) : Char :=
  if n < 10 then Char.ofNat (48 + n) else Char.ofNat (87 + n)

/-- Four lowercase hex digits of `n < 0x10000` (most significant first). -/
def hex4 (n : Nat) : List Char :=
  [hexDigit (n / 4096 % 16), hexDigit (n / 256 % 16), hexDigit (n / 16 % 16), hexDigit (n % 16)]

/-- Escape one character the way Python's `json.dumps` does with its default
`ensure_ascii=True` (all characters outside printable ASCII become escapes,
astral characters become surrogate pairs). -/
def escCharAscii (c : Char) : List Char :=
  if c = '"' then ['\\', '"']
  else if c = '\\' then ['\\', '\\']
  else if c = Char.ofNat 8 then ['\\', 'b']
  else if c = Char.ofNat 9 then ['\\', 't']
  else if c = Char.ofNat 10 then ['\\', 'n']
  else if c = Char.ofNat 12 then ['\\', 'f']
  else if c = Char.ofNat 13 then ['\\', 'r']
  else if c.toNat < 32 then '\\' :: 'u' :: hex4 c.toNat
  else if c.toNat ≤ 126 then [c]
  else if c.toNat < 65536 then '\\' :: 'u' :: hex4 c.toNat
  else
    ('\\' :: 'u' :: hex4 (55296 + (c.toNat - 65536) / 1024)) ++
    ('\\' :: 'u' :: hex4 (56320 + (c.toNat - 65536) % 1024))

/-- Escape one character the way pydantic's JSON encoder does
(`ensure_ascii=False` style: only the quote, the backslash and control
characters are escaped; everything else is emitted raw). -/
def escCharRaw (c : Char) : List Char :=
  if c = '"' then ['\\', '"']
  else if c = '\\' then ['\\', '\\']
  else if c = Char.ofNat 8 then ['\\', 'b']
  else if c = Char.ofNat 9 then ['\\', 't']
  else if c = Char.ofNat 10 then ['\\', 'n']
  else if c = Char.ofNat 12 then ['\\', 'f']
  else if c = Char.ofNat 13 then ['\\', 'r']
  else if c.toNat < 32 then '\\' :: 'u' :: hex4 c.toNat
  else [c]

/-- Quoted JSON string literal under a character escaper. -/
def quoteWith (esc : Char → List Char) (s : String) : List Char :=
  '"' :: (s.data.flatMap esc ++ ['"'])

/-- Decimal digits of a natural number, most significant first; the first
argument is fuel, never exhausted when it is at least the number. -/
def natCharsAux : Nat → Nat → List Char
  | 0, n => [hexDigit (n % 10)]
  | fuel + 1, n =>
    if n < 10 then [hexDigit n] else natCharsAux fuel (n / 10) ++ [hexDigit (n % 10)]

/-- Decimal digits of a natural number, most significant first. -/
def natChars (n : Nat) : List Char := natCharsAux n n

/-- Decimal rendering of an integer, as the `json` module prints it. -/
def intChars (n : Int) : List Char :=
  if n < 0 then '-' :: natChars n.natAbs else natChars n.toNat

mutual
/-- Model of `json.dumps` with the default separators `", "` and `": "` and
`ensure_ascii=True`, on an already-canonicalized value; fails (Python
`TypeError`) on a non-serializable object. -/
def dumpSpaced : PyVal → Except String (List Char)
  | .null => .ok "null".data
  | .bool true => .ok "true".data
  | .bool false => .ok "false".data
  | .int n => .ok (intChars n)
  | .str s => .ok (quoteWith escCharAscii s)
  | .list xs => do
      let body ← dumpSpacedList xs
      pure ('[' :: (body ++ [']']))
  | .dict kvs => do
      let body ← dumpSpacedKvs kvs
      pure ('{' :: (body ++ ['}']))
  | .obj tag => .error ("Object of type " ++ tag ++ " is not JSON serializable")

def dumpSpacedList : List PyVal → Except String (List Char)
  | [] => .ok []
  | [x] => dumpSpaced x
  | x :: y :: xs => do
      let cx ← dumpSpaced x
      let rest ← dumpSpacedList (y :: xs)
      pure (cx ++ (',' :: ' ' :: rest))

def dumpSpacedKvs : List (String × PyVal) → Except String (List Char)
  | [] => .ok []
  | [kv] => do
      let cv ← dumpSpaced kv.2
      pure (quoteWith escCharAscii kv.1 ++ (':' :: ' ' :: cv))
  | kv :: kv2 :: kvs => do
      let cv ← dumpSpaced kv.2
      let rest ← dumpSpacedKvs (kv2 :: kvs)
      pure (quoteWith escCharAscii kv.1 ++ (':' :: ' ' :: cv) ++ (',' :: ' ' :: rest))
end

mutual
/-- Model of pydantic's `completion.json()` serializer: compact separators,
raw non-ASCII, field order preserved. -/
def dumpCompact : PyVal → Except String (List Char)
  | .null => .ok "null".data
  | .bool true => .ok "true".data
  | .bool false => .ok "false".data
  | .int n => .ok (intChars n)
  | .str s => .ok (quoteWith escCharRaw s)
  | .list xs => do
      let body ← dumpCompactList xs
      pure ('[' :: (body ++ [']']))
  | .dict kvs => do
      let body ← dumpCompactKvs kvs
      pure ('{' :: (body ++ ['}']))
  | .obj tag => .error ("Object of type " ++ tag ++ " is not JSON serializable")

def dumpCompactList : List PyVal → Except String (List Char)
  | [] => .ok []
  | [x] => dumpCompact x
  | x :: y :: xs => do
      let cx ← dumpCompact x
      let rest ← dumpCompactList (y :: xs)
      pure (cx ++ (',' :: rest))

def dumpCompactKvs : List (String × PyVal) → Except String (List Char)
  | [] => .ok []
  | [kv] => do
      let cv ← dumpCompact kv.2
      pure (quoteWith escCharRaw kv.1 ++ (':' :: cv))
  | kv :: kv2 :: kvs => do
      let cv ← dumpCompact kv.2
      let rest ← dumpCompactKvs (kv2 :: kvs)
      pure (quoteWith escCharRaw kv.1 ++ (':' :: cv) ++ (',' :: rest))
end

/-- UTF-8 encoding of a single Unicode scalar value, as a list of bytes. -/
def utf8Encode (c : Nat) : List Nat :=
  if c < 128 then [c]
  else if c < 2048 then [192 + c / 64, 128 + c % 64]
  else if c < 65536 then [224 + c / 4096, 128 + c / 64 % 64, 128 + c % 64]
  else [240 + c / 262144, 128 + c / 4096 % 64, 128 + c / 64 % 64, 128 + c % 64]

/-- Bytes of `str.encode('utf-8')`. -/
def strBytes (cs : List Char) : List Nat :=
  cs.flatMap (fun c => utf8Encode c.toNat)

/-! MD5, modelling `hashlib.md5`.  Words are naturals reduced mod 2^32. -/

/-- Addition modulo 2^32. -/
def w32add (a b : Nat) : Nat := (a + b) % 4294967296

/-- Bitwise complement on 32-bit words. -/
def w32not (a : Nat) : Nat := a ^^^ 4294967295

/-- Left rotation of a 32-bit word. -/
def w32rotl (x n : Nat) : Nat :=
  ((x <<< n) % 4294967296) ||| (x >>> (32 - n))

/-- MD5 round constants (the integer parts of 2^32 times the absolute sines). -/
def md5K : List Nat :=
  [0xd76aa478, 0xe8c7b756, 0x242070db, 0xc1bdceee,
   0xf57c0faf, 0x4787c62a, 0xa8304613, 0xfd469501,
   0x698098d8, 0x8b44f7af, 0xffff5bb1, 0x895cd7be,
   0x6b901122, 0xfd987193, 0xa679438e, 0x49b40821,
   0xf61e2562, 0xc040b340, 0x265e5a51, 0xe9b6c7aa,
   0xd62f105d, 0x02441453, 0xd8a1e681, 0xe7d3fbc8,
   0x21e1cde6, 0xc33707d6, 0xf4d50d87, 0x455a14ed,
   0xa9e3e905, 0xfcefa3f8, 0x676f02d9, 0x8d2a4c8a,
   0xfffa3942, 0x8771f681, 0x6d9d6122, 0xfde5380c,
   0xa4beea44, 0x4bdecfa9, 0xf6bb4b60, 0xbebfbc70,
   0x289b7ec6, 0xeaa127fa, 0xd4ef3085, 0x04881d05,
   0xd9d4d039, 0xe6db99e5, 0x1fa27cf8, 0xc4ac5665,
   0xf4292244, 0x432aff97, 0xab9423a7, 0xfc93a039,
   0x655b59c3, 0x8f0ccc92, 0xffeff47d, 0x85845dd1,
   0x6fa87e4f, 0xfe2ce6e0, 0xa3014314, 0x4e0811a1,
   0xf7537e82, 0xbd3af235, 0x2ad7d2bb, 0xeb86d391]

/-- MD5 per-step left-rotation amounts. -/
def md5S : List Nat :=
  [7, 12, 17, 22, 7, 12, 17, 22, 7, 12, 17, 22, 7, 12, 17, 22,
   5, 9, 14, 20, 5, 9, 14, 20, 5, 9, 14, 20, 5, 9, 14, 20,
   4, 11, 16, 23, 4, 11, 16, 23, 4, 11, 16, 23, 4, 11, 16, 23,
   6, 10, 15, 21, 6, 10, 15, 21, 6, 10, 15, 21, 6, 10, 15, 21]

/-- Nonlinear function and message index for MD5 step `i` given `b c d`. -/
def md5FG (i b c d : Nat) : Nat × Nat :=
  if i < 16 then ((b &&& c) ||| (w32not b &&& d), i)
  else if i < 32 then ((d &&& b) ||| (w32not d &&& c), (5 * i + 1) % 16)
  else if i < 48 then (b ^^^ c ^^^ d, (3 * i + 5) % 16)
  else (c ^^^ (b ||| w32not d), (7 * i) % 16)

/-- One MD5 step. -/
def md5Step (m : List Nat) (st : Nat × Nat × Nat × Nat) (i : Nat) :
    Nat × Nat × Nat × Nat :=
  let (a, b, c, d) := st
  let (f, g) := md5FG i b c d
  let f' := w32add (w32add (w32add f a) (md5K.getD i 0)) (m.getD g 0)
  (d, w32add b (w32rotl f' (md5S.getD i 0)), b, c)

/-- Split 64 bytes into sixteen little-endian 32-bit words. -/
def md5Words : List Nat → List Nat
  | b0 :: b1 :: b2 :: b3 :: rest =>
      (b0 + 256 * b1 + 65536 * b2 + 16777216 * b3) :: md5Words rest
  | _ => []

/-- Process one 64-byte block. -/
def md5Block (st : Nat × Nat × Nat × Nat) (block : List Nat) :
    Nat × Nat × Nat × Nat :=
  let m := md5Words block
  let (a, b, c, d) := (List.range 64).foldl (md5Step m) st
  let (a0, b0, c0, d0) := st
  (w32add a0 a, w32add b0 b, w32add c0 c, w32add d0 d)

/-- Split a byte list into chunks of 64; the first argument is fuel, never
exhausted when it is at least the list length. -/
def chunks64Aux : Nat → List Nat → List (List Nat)
  | _, [] => []
  | 0, b :: bs => [b :: bs]
  | fuel + 1, b :: bs => (b :: bs).take 64 :: chunks64Aux fuel ((b :: bs).drop 64)

/-- Split a byte list into chunks of 64. -/
def chunks64 (bs : List Nat) : List (List Nat) := chunks64Aux bs.length bs

/-- MD5 padding: `0x80`, zeros to 56 mod 64, then the bit length in 8
little-endian bytes. -/
def md5Pad (bs : List Nat) : List Nat :=
  let len := bs.length
  let padLen := (55 + 64 - len % 64) % 64 + 1
  let bitLen := (8 * len) % 18446744073709551616
  bs ++ (128 :: List.replicate (padLen - 1) 0) ++
    (List.range 8).map (fun i => bitLen / 256 ^ i % 256)

/-- Little-endian bytes of a 32-bit word. -/
def w32bytes (w : Nat) : List Nat :=
  [w % 256, w / 256 % 256, w / 65536 % 256, w / 16777216 % 256]

/-- The sixteen digest bytes of MD5 over a byte list. -/
def md5Bytes (bs : List Nat) : List Nat :=
  let (a, b, c, d) :=
    (chunks64 (md5Pad bs)).foldl md5Block
      (0x67452301, 0xefcdab89, 0x98badcfe, 0x10325476)
  w32bytes a ++ w32bytes b ++ w32bytes c ++ w32bytes d

/-- Two lowercase hex characters of a byte. -/
def byteHex (b : Nat) : List Char := [hexDigit (b / 16 % 16), hexDigit (b % 16)]

/-- Model of `hashlib.md5(s.encode('utf-8')).hexdigest()`. -/
def md5Hexdigest (s : String) : String :=
  ⟨(md5Bytes (strBytes s.data)).flatMap byteHex⟩

/-! Key derivation (`CacheResult.make_cache_key` and
`CacheResult.make_chat_completion_key` in src/src/cache.py). -/

/-- Python dictionary assignment `d[k] = v`: replace the value in place if
the key is present, otherwise append the pair. -/
def pyDictInsert (d : List (String × PyVal)) (k : String) (v : PyVal) :
    List (String × PyVal) :=
  if d.any (fun p => p.1 = k) then
    d.map (fun p => if p.1 = k then (k, v) else p)
  else d ++ [(k, v)]

/-- Building a Python dict literal with trailing `**kwargs` splat: start from
the literal entries and assign each splatted pair in order. -/
def pyDictFold (init : List (String × PyVal)) (updates : List (String × PyVal)) :
    List (String × PyVal) :=
  updates.foldl (fun d kv => pyDictInsert d kv.1 kv.2) init

/-- A caller-supplied pydantic model class, treated as a capability: its
canonical JSON schema (`model_json_schema()`) and its validation function
(`model_validate`, which either fails or returns the validated value). -/
structure SchemaModel where
  jsonSchema : PyVal
  validate : PyVal → Except String PyVal

/-- Model of `CacheResult.make_cache_key`: serialize the keyword arguments
with `json.dumps(kwargs, sort_keys=True)`, MD5 the UTF-8 bytes, and join the
namespace and digest with two underscores.  Returns the Python `TypeError`
message when a value is not JSON serializable. -/
def make_cache_key (key_name : String) (kwargs : List (String × PyVal)) :
    Except String String :=
  match dumpSpaced (canonicalize (.dict kwargs)) with
  | .error e => .error e
  | .ok cs => .ok (key_name ++ "__" ++ md5Hexdigest ⟨cs⟩)

/-- Model of `CacheResult.make_chat_completion_key`: fold `model`,
`messages` and the extra keyword arguments into one parameter dict; when a
response schema is supplied, additionally fold in its JSON schema under
`"response_format"` and use the structured namespace. -/
def make_chat_completion_key (model : String) (messages : PyVal)
    (response_format : Option SchemaModel) (kwargs : List (String × PyVal)) :
    Except String String :=
  let base_params := pyDictFold [("model", .str model), ("messages", messages)] kwargs
  match response_format with
  | some rf =>
      make_cache_key "openai_chat_completion_structured"
        (pyDictInsert base_params "response_format" rf.jsonSchema)
  | none => make_cache_key "openai_chat_completion" base_params

/-! A recursive-descent model of `json.loads`.  The fuel argument bounds the
nesting depth; `json_loads` supplies one more than the input length, which a
successful parse can never exhaust since every descent consumes input. -/

/-- JSON whitespace. -/
def isWs (c : Char) : Bool := c = ' ' || c = Char.ofNat 10 || c = Char.ofNat 9 || c = Char.ofNat 13

/-- Drop leading JSON whitespace. -/
def skipWs : List Char → List Char
  | [] => []
  | c :: cs => if isWs c then skipWs cs else c :: cs

/-- Numeric value of a hex digit character. -/
def hexVal (c : Char) : Option Nat :=
  if '0' ≤ c ∧ c ≤ '9' then some (c.toNat - 48)
  else if 'a' ≤ c ∧ c ≤ 'f' then some (c.toNat - 87)
  else if 'A' ≤ c ∧ c ≤ 'F' then some (c.toNat - 55)
  else none

/-- Single-character JSON escapes. -/
def unescape (c : Char) : Option Char :=
  if c = '"' then some '"'
  else if c = '\\' then some '\\'
  else if c = '/' then some '/'
  else if c = 'b' then some (Char.ofNat 8)
  else if c = 'f' then some (Char.ofNat 12)
  else if c = 'n' then some (Char.ofNat 10)
  else if c = 'r' then some (Char.ofNat 13)
  else if c = 't' then some (Char.ofNat 9)
  else none

/-- Combined value of four hex digit characters. -/
def hexVal4 (h1 h2 h3 h4 : Char) : Option Nat :=
  match hexVal h1, hexVal h2, hexVal h3, hexVal h4 with
  | some a, some b, some c, some d => some (4096 * a + 256 * b + 16 * c + d)
  | _, _, _, _ => none

mutual
/-- Parse the body of a JSON string literal after the opening quote,
returning the decoded characters and the input after the closing quote. -/
def parseStringBody : List Char → Except String (List Char × List Char)
  | [] => .error "Unterminated string"
  | c :: rest =>
    if c = '"' then .ok ([], rest)
    else if c = '\\' then parseStringEscape rest
    else
      match parseStringBody rest with
      | .error e => .error e
      | .ok (s, r) => .ok (c :: s, r)

/-- Handle the input after a backslash inside a string literal. -/
def parseStringEscape : List Char → Except String (List Char × List Char)
  | [] => .error "Unterminated string"
  | e :: rest1 =>
    if e = 'u' then parseUnicodeEscape rest1
    else
      match unescape e with
      | some d =>
        (match parseStringBody rest1 with
         | .error e => .error e
         | .ok (s, r) => .ok (d :: s, r))
      | none => .error "Invalid escape"

/-- Handle a `u` escape: four hex digits, combining surrogate pairs; a lone
surrogate is rejected (Lean characters are Unicode scalars). -/
def parseUnicodeEscape : List Char → Except String (List Char × List Char)
  | h1 :: h2 :: h3 :: h4 :: rest2 =>
    (match hexVal4 h1 h2 h3 h4 with
     | none => .error "Invalid hex escape"
     | some n =>
       if 55296 ≤ n ∧ n < 56320 then parseLowSurrogate n rest2
       else if 56320 ≤ n ∧ n < 57344 then .error "Unpaired surrogate"
       else
         match parseStringBody rest2 with
         | .error e => .error e
         | .ok (s, r) => .ok (Char.ofNat n :: s, r))
  | _ => .error "Invalid hex escape"

/-- Read the low half of a surrogate pair after a high surrogate escape. -/
def parseLowSurrogate (hi : Nat) : List Char → Except String (List Char × List Char)
  | '\\' :: 'u' :: g1 :: g2 :: g3 :: g4 :: rest3 =>
    (match hexVal4 g1 g2 g3 g4 with
     | none => .error "Invalid hex escape"
     | some m =>
       if 56320 ≤ m ∧ m < 57344 then
         match parseStringBody rest3 with
         | .error e => .error e
         | .ok (s, r) =>
           .ok (Char.ofNat (65536 + (hi - 55296) * 1024 + (m - 56320)) :: s, r)
       else .error "Unpaired surrogate")
  | _ => .error "Unpaired surrogate"
end

/-- Accumulate a run of decimal digits. -/
def parseDigits : List Char → Nat → Nat × List Char
  | [], acc => (acc, [])
  | c :: cs, acc =>
      if c.isDigit then parseDigits cs (10 * acc + (c.toNat - 48)) else (acc, c :: cs)

/-- Reject a numeric literal that continues as a float or exponent (the
embedding does not model floating point). -/
def checkIntEnd (v : Int) (rest : List Char) : Except String (PyVal × List Char) :=
  match rest with
  | c :: _ =>
      if c = '.' ∨ c = 'e' ∨ c = 'E' then .error "Float literals are not modelled"
      else .ok (.int v, rest)
  | [] => .ok (.int v, rest)

/-- Parse an integer literal. -/
def parseNumber : List Char → Except String (PyVal × List Char)
  | [] => .error "Expecting value"
  | c :: cs =>
    if c = '-' then
      match cs with
      | [] => .error "Expecting value"
      | c2 :: _ =>
        if c2.isDigit then
          let (n, rest) := parseDigits cs 0
          checkIntEnd (-(n : Int)) rest
        else .error "Expecting value"
    else if c.isDigit then
      let (n, rest) := parseDigits (c :: cs) 0
      checkIntEnd (n : Int) rest
    else .error "Expecting value"

/-- Consume an expected literal tail (for `null`, `true`, `false`). -/
def expectChars : List Char → List Char → Except String (List Char)
  | [], cs => .ok cs
  | l :: ls, c :: cs => if c = l then expectChars ls cs else .error "Expecting value"
  | _ :: _, [] => .error "Expecting value"

mutual
/-- Parse one JSON value, returning it and the remaining input. -/
def parseValue : Nat → List Char → Except String (PyVal × List Char)
  | 0, _ => .error "Too deeply nested"
  | fuel + 1, cs =>
    match skipWs cs with
    | [] => .error "Expecting value"
    | c :: rest =>
      if c = 'n' then do
        let r ← expectChars ['u', 'l', 'l'] rest
        pure (.null, r)
      else if c = 't' then do
        let r ← expectChars ['r', 'u', 'e'] rest
        pure (.bool true, r)
      else if c = 'f' then do
        let r ← expectChars ['a', 'l', 's', 'e'] rest
        pure (.bool false, r)
      else if c = '"' then do
        let (s, rest2) ← parseStringBody rest
        pure (.str ⟨s⟩, rest2)
      else if c = '[' then
        match skipWs rest with
        | [] => .error "Expecting value"
        | c2 :: rest2 =>
          if c2 = ']' then .ok (.list [], rest2)
          else do
            let (xs, rest3) ← parseElems fuel rest
            pure (.list xs, rest3)
      else if c = '{' then
        match skipWs rest with
        | [] => .error "Expecting value"
        | c2 :: rest2 =>
          if c2 = '}' then .ok (.dict [], rest2)
          else do
            let (kvs, rest3) ← parseMembers fuel rest
            pure (.dict (pyDictFold [] kvs), rest3)
      else parseNumber (c :: rest)

/-- Parse the comma-separated elements of a nonempty array, including the
closing bracket. -/
def parseElems : Nat → List Char → Except String (List PyVal × List Char)
  | 0, _ => .error "Too deeply nested"
  | fuel + 1, cs => do
      let (v, rest) ← parseValue fuel cs
      match skipWs rest with
      | [] => .error "Expecting comma"
      | c :: rest2 =>
        if c = ',' then do
          let (vs, rest3) ← parseElems fuel rest2
          pure (v :: vs, rest3)
        else if c = ']' then pure ([v], rest2)
        else .error "Expecting comma"

/-- Parse the members of a nonempty object, including the closing brace. -/
def parseMembers : Nat → List Char → Except String (List (String × PyVal) × List Char)
  | 0, _ => .error "Too deeply nested"
  | fuel + 1, cs =>
      match skipWs cs with
      | [] => .error "Expecting property name"
      | c :: rest =>
        if c = '"' then do
          let (k, rest1) ← parseStringBody rest
          match skipWs rest1 with
          | [] => .error "Expecting colon"
          | c2 :: rest2 =>
            if c2 = ':' then do
              let (v, rest3) ← parseValue fuel rest2
              match skipWs rest3 with
              | [] => .error "Expecting comma"
              | c3 :: rest4 =>
                if c3 = ',' then do
                  let (kvs, rest5) ← parseMembers fuel rest4
                  pure ((⟨k⟩, v) :: kvs, rest5)
                else if c3 = '}' then pure ([(⟨k⟩, v)], rest4)
                else .error "Expecting comma"
            else .error "Expecting colon"
        else .error "Expecting property name"
end

/-- Model of `json.loads`: parse one value and require only whitespace after
it.  Object literals are folded into a dict with last-occurrence-wins
semantics, as Python builds the dict. -/
def json_loads (s : String) : Except String PyVal :=
  match parseValue (s.data.length + 1) s.data with
  | .error e => .error e
  | .ok (v, rest) =>
      match skipWs rest with
      | [] => .ok v
      | _ => .error "Extra data"

/-! Completion objects.  The OpenAI SDK types are external collaborators;
they are embedded with the fields this core reads and serializes (`choices`
with `content`, `refusal` and `parsed`, plus the scalar fields `id`,
`created` and `model`).  `ParsedChatCompletion` and `ChatCompletion` are
modelled as two distinct variants selected by the call site's structured
flag, as the spec's design notes direct. -/

/-- Message of an unstructured chat completion choice. -/
structure ChatMessage where
  role : String
  content : Option String
  refusal : Option String

/-- One choice of an unstructured chat completion. -/
structure ChatChoice where
  finish_reason : String
  index : Int
  message : ChatMessage

/-- Unstructured completion object (`ChatCompletion`). -/
structure ChatCompletion where
  id : String
  choices : List ChatChoice
  created : Int
  model : String

/-- Message of a structured completion choice; `parsed` holds the JSON value
of the parsed object (`PyVal.null` when absent). -/
structure ParsedMessage where
  role : String
  content : Option String
  refusal : Option String
  parsed : PyVal

/-- One choice of a structured completion. -/
structure ParsedChoice where
  finish_reason : String
  index : Int
  message : ParsedMessage

/-- Structured completion object (`ParsedChatCompletion`). -/
structure ParsedChatCompletion where
  id : String
  choices : List ParsedChoice
  created : Int
  model : String

/-- A completion result, tagged by variant. -/
inductive Completion where
  | unstructured (c : ChatCompletion)
  | structured (c : ParsedChatCompletion)

/-- Truthiness of a Python `Optional[str]`: `None` and the empty string are
falsy. -/
def pyTruthy : Option String → Bool
  | none => false
  | some s => !s.isEmpty

/-- JSON value of an optional string field. -/
def optStrJson : Option String → PyVal
  | none => .null
  | some s => .str s

/-- Pydantic serialization of an unstructured message. -/
def chatMessageJson (m : ChatMessage) : PyVal :=
  .dict [("content", optStrJson m.content), ("refusal", optStrJson m.refusal),
         ("role", .str m.role)]

/-- Pydantic serialization of an unstructured choice. -/
def chatChoiceJson (c : ChatChoice) : PyVal :=
  .dict [("finish_reason", .str c.finish_reason), ("index", .int c.index),
         ("message", chatMessageJson c.message)]

/-- Pydantic serialization of an unstructured completion. -/
def chatCompletionJson (c : ChatCompletion) : PyVal :=
  .dict [("id", .str c.id), ("choices", .list (c.choices.map chatChoiceJson)),
         ("created", .int c.created), ("model", .str c.model)]

/-- Pydantic serialization of a structured message. -/
def parsedMessageJson (m : ParsedMessage) : PyVal :=
  .dict [("content", optStrJson m.content), ("refusal", optStrJson m.refusal),
         ("role", .str m.role), ("parsed", m.parsed)]

/-- Pydantic serialization of a structured choice. -/
def parsedChoiceJson (c : ParsedChoice) : PyVal :=
  .dict [("finish_reason", .str c.finish_reason), ("index", .int c.index),
         ("message", parsedMessageJson c.message)]

/-- Pydantic serialization of a structured completion. -/
def parsedChatCompletionJson (c : ParsedChatCompletion) : PyVal :=
  .dict [("id", .str c.id), ("choices", .list (c.choices.map parsedChoiceJson)),
         ("created", .int c.created), ("model", .str c.model)]

/-- JSON value serialized by `completion.json()`. -/
def completionJsonVal : Completion → PyVal
  | .unstructured c => chatCompletionJson c
  | .structured c => parsedChatCompletionJson c

/-- Model of pydantic's `completion.json()`: the canonical text form written
to the cache. -/
def completion_json (c : Completion) : Except String String :=
  match dumpCompact (completionJsonVal c) with
  | .error e => .error e
  | .ok cs => .ok ⟨cs⟩

/-- First value bound to a key in an association list. -/
def lookupField (kvs : List (String × PyVal)) (k : String) : Option PyVal :=
  match kvs with
  | [] => none
  | (k2, v) :: rest => if k2 = k then some v else lookupField rest k

/-- Validation of a required field. -/
def requireField (kvs : List (String × PyVal)) (k : String) : Except String PyVal :=
  match lookupField kvs k with
  | some v => .ok v
  | none => .error ("Field required: " ++ k)

/-- Validate a required string field. -/
def asStr : PyVal → Except String String
  | .str s => .ok s
  | _ => .error "Input should be a valid string"

/-- Validate an optional string field. -/
def asOptStr : PyVal → Except String (Option String)
  | .null => .ok none
  | .str s => .ok (some s)
  | _ => .error "Input should be a valid string"

/-- Validate a required integer field. -/
def asInt : PyVal → Except String Int
  | .int n => .ok n
  | _ => .error "Input should be a valid integer"

/-- Model of `ChatCompletion.model_validate` on a message object. -/
def chatMessage_validate (v : PyVal) : Except String ChatMessage :=
  match v with
  | .dict kvs => do
      let role ← asStr (← requireField kvs "role")
      let content ← asOptStr ((lookupField kvs "content").getD .null)
      let refusal ← asOptStr ((lookupField kvs "refusal").getD .null)
      pure ⟨role, content, refusal⟩
  | _ => .error "Input should be an object"

/-- Model of `ChatCompletion.model_validate` on a choice object. -/
def chatChoice_validate (v : PyVal) : Except String ChatChoice :=
  match v with
  | .dict kvs => do
      let fr ← asStr (← requireField kvs "finish_reason")
      let ix ← asInt (← requireField kvs "index")
      let msg ← chatMessage_validate (← requireField kvs "message")
      pure ⟨fr, ix, msg⟩
  | _ => .error "Input should be an object"

/-- Model of `ChatCompletion.model_validate`. -/
def chatCompletion_validate (v : PyVal) : Except String ChatCompletion :=
  match v with
  | .dict kvs => do
      let id ← asStr (← requireField kvs "id")
      let chs ←
        match ← requireField kvs "choices" with
        | .list vs => vs.mapM chatChoice_validate
        | _ => .error "Input should be a list"
      let created ← asInt (← requireField kvs "created")
      let model ← asStr (← requireField kvs "model")
      pure ⟨id, chs, created, model⟩
  | _ => .error "Input should be an object"

/-- Model of `ParsedChatCompletion.model_validate` on a message object.  The
generic `parsed` payload is kept as the raw deserialized value, which is why
the hit path must re-validate it against the request's schema. -/
def parsedMessage_validate (v : PyVal) : Except String ParsedMessage :=
  match v with
  | .dict kvs => do
      let role ← asStr (← requireField kvs "role")
      let content ← asOptStr ((lookupField kvs "content").getD .null)
      let refusal ← asOptStr ((lookupField kvs "refusal").getD .null)
      pure ⟨role, content, refusal, (lookupField kvs "parsed").getD .null⟩
  | _ => .error "Input should be an object"

/-- Model of `ParsedChatCompletion.model_validate` on a choice object. -/
def parsedChoice_validate (v : PyVal) : Except String ParsedChoice :=
  match v with
  | .dict kvs => do
      let fr ← asStr (← requireField kvs "finish_reason")
      let ix ← asInt (← requireField kvs "index")
      let msg ← parsedMessage_validate (← requireField kvs "message")
      pure ⟨fr, ix, msg⟩
  | _ => .error "Input should be an object"

/-- Model of `ParsedChatCompletion.model_validate`. -/
def parsedChatCompletion_validate (v : PyVal) : Except String ParsedChatCompletion :=
  match v with
  | .dict kvs => do
      let id ← asStr (← requireField kvs "id")
      let chs ←
        match ← requireField kvs "choices" with
        | .list vs => vs.mapM parsedChoice_validate
        | _ => .error "Input should be a list"
      let created ← asInt (← requireField kvs "created")
      let model ← asStr (← requireField kvs "model")
      pure ⟨id, chs, created, model⟩
  | _ => .error "Input should be an object"

/-! The completion gateway (`CachedChatCompletions` in
src/src/chat_completions.py). -/

/-- Errors surfaced by `get_completion`: Python `TypeError` or
`JSONDecodeError` from (de)serialization, pydantic `ValidationError`, and
`APICallError` (the repository's exceptions module, imported by
src/src/chat_completions.py) once the retry loop gives up. -/
inductive GatewayError where
  | serialization (msg : String)
  | validation (msg : String)
  | apiCall (msg : String)
deriving DecidableEq

/-- The persistent store, modelled as an association of keys to the cached
serialized strings.  `diskcache.Cache.get` with a default models the
miss sentinel as `Option.none`. -/
abbrev Store := List (String × String)

/-- Model of `cache.get_async(key, default=MISS_SENTINEL)`. -/
def storeGet (store : Store) (k : String) : Option String :=
  match store with
  | [] => none
  | (k2, v) :: rest => if k2 = k then some v else storeGet rest k

/-- Model of `cache.set_async(key, val)`: overwrite or append. -/
def storeSet (store : Store) (k v : String) : Store :=
  if store.any (fun p => p.1 = k) then
    store.map (fun p => if p.1 = k then (k, v) else p)
  else store ++ [(k, v)]

/-- Model of `_make_api_call` under its `backoff.on_exception(backoff.expo,
Exception)` decorator: every upstream exception is wrapped in
`APICallError("API call failed: ...")` and retried.  The decorator sets no
maximum-retry cap, so the loop is unbounded; `fuel` is the number of retries
after which the embedding lets the policy give up and surface the last
wrapped error, as `backoff` does when a bound is reached.  The upstream
capability is indexed by the invocation counter; the second component of the
result counts the invocations performed. -/
def retry_api_call (call : Nat → Except String Completion) :
    Nat → Nat → Except String Completion × Nat
  | i, 0 =>
    (match call i with
     | .ok c => (.ok c, 1)
     | .error e => (.error ("API call failed: " ++ e), 1))
  | i, fuel + 1 =>
    match call i with
    | .ok c => (.ok c, 1)
    | .error _ =>
      let r := retry_api_call call (i + 1) fuel
      (r.1, r.2 + 1)

/-- The structured hit path's per-choice reconstruction: a choice whose
`refusal` is falsy has its `parsed` payload re-validated against the
request's schema; a choice with truthy `refusal` passes through unchanged. -/
def revalidate_choice (rf : SchemaModel) (ch : ParsedChoice) : Except String ParsedChoice :=
  if pyTruthy ch.message.refusal then .ok ch
  else
    match rf.validate ch.message.parsed with
    | .error e => .error e
    | .ok p => .ok { ch with message := { ch.message with parsed := p } }

/-- The cache-hit branch of `get_completion`: deserialize the cached text as
the variant selected by the request's schema presence, re-validating every
non-refusal parsed payload in the structured case. -/
def hit_reconstruct (response_format : Option SchemaModel) (cached : String) :
    Except GatewayError Completion :=
  match response_format with
  | some rf =>
      (match json_loads cached with
       | .error e => .error (.serialization e)
       | .ok v =>
         match parsedChatCompletion_validate v with
         | .error e => .error (.validation e)
         | .ok completion =>
           match completion.choices.mapM (revalidate_choice rf) with
           | .error e => .error (.validation e)
           | .ok chs => .ok (.structured { completion with choices := chs }))
  | none =>
      match json_loads cached with
      | .error e => .error (.serialization e)
      | .ok v =>
        match chatCompletion_validate v with
        | .error e => .error (.validation e)
        | .ok c => .ok (.unstructured c)

/-- Outcome of one `get_completion` call: the returned result or surfaced
error, the persistent store afterwards, and how many times the upstream
capability was invoked. -/
structure GatewayResult where
  result : Except GatewayError Completion
  store : Store
  upstream_calls : Nat

/-- Model of `CachedChatCompletions.get_completion`.  `client b i` is the
upstream completion capability (`b` selects the structured `parse` endpoint,
`i` is the invocation counter); `fuel` bounds the otherwise unbounded retry
loop as in `retry_api_call`. -/
def get_completion (client : Bool → Nat → Except String Completion) (fuel : Nat)
    (store : Store) (model : String) (messages : PyVal)
    (response_format : Option SchemaModel) (kwargs : List (String × PyVal)) :
    GatewayResult :=
  let is_structured := response_format.isSome
  match make_chat_completion_key model messages response_format kwargs with
  | .error e => ⟨.error (.serialization e), store, 0⟩
  | .ok cache_key =>
    match storeGet store cache_key with
    | none =>
      let (r, n) := retry_api_call (client is_structured) 0 fuel
      match r with
      | .error e => ⟨.error (.apiCall e), store, n⟩
      | .ok completion =>
        match completion_json completion with
        | .error e => ⟨.error (.serialization e), store, n⟩
        | .ok s => ⟨.ok completion, storeSet store cache_key s, n⟩
    | some cached => ⟨hit_reconstruct response_format cached, store, 0⟩

/-- Values returned by `extract_response`. -/
inductive ExtractedValue where
  | text (s : Option String)
  | parsedObj (v : PyVal)

/-- Failures of `extract_response`: the Python `IndexError` raised by
`completion.choices[0]` on an empty list, and the fallback
`ValueError("Unsupported completion type")`. -/
inductive ExtractError where
  | indexError
  | unsupported
deriving DecidableEq

/-- Model of `CachedChatCompletions.extract_response`.  The
`isinstance(completion, ChatCompletion)` test selects the unstructured
variant (the two SDK classes are modelled as distinct variants); there
`choices[0].message.content` raises `IndexError` when `choices` is empty.
Otherwise the `hasattr(completion, 'choices') and completion.choices` guard
accepts a structured completion only when its choice list is truthy
(nonempty), and anything else falls through to the `ValueError`. -/
def extract_response : Completion → Except ExtractError ExtractedValue
  | .unstructured c =>
    match c.choices with
    | [] => .error .indexError
    | ch :: _ => .ok (.text ch.message.content)
  | .structured c =>
    match c.choices with
    | [] => .error .unsupported
    | ch :: _ => .ok (.parsedObj ch.message.parsed)

/-! Digest format lemmas. -/

/-- Lowercase hexadecimal characters. -/
def isLowerHexChar (c : Char) : Bool :=
  ('0' ≤ c && c ≤ '9') || ('a' ≤ c && c ≤ 'f')

theorem byteHex_flatMap_length (l : List Nat) : (l.flatMap byteHex).length = 2 * l.length := by
  induction l with
  | nil => simp
  | cons b t ih => simp [byteHex, ih]; omega

theorem md5Bytes_length (bs : List Nat) : (md5Bytes bs).length = 16 := by
  rw [md5Bytes]
  generalize (chunks64 (md5Pad bs)).foldl md5Block
    (0x67452301, 0xefcdab89, 0x98badcfe, 0x10325476) = p
  obtain ⟨a, b, c, d⟩ := p
  simp [w32bytes]

theorem md5Hexdigest_length (s : String) : (md5Hexdigest s).length = 32 := by
  show ((md5Bytes (strBytes s.data)).flatMap byteHex).length = 32
  rw [byteHex_flatMap_length, md5Bytes_length]

theorem hexDigit_isLowerHex : ∀ n, n < 16 → isLowerHexChar (hexDigit n) = true := by decide

theorem md5Hexdigest_lowerHex (s : String) :
    (md5Hexdigest s).data.all isLowerHexChar = true := by
  show ((md5Bytes (strBytes s.data)).flatMap byteHex).all isLowerHexChar = true
  rw [List.all_eq_true]
  intro c hc
  rw [List.mem_flatMap] at hc
  obtain ⟨b, _, hb⟩ := hc
  simp only [byteHex, List.mem_cons, List.mem_singleton] at hb
  rcases hb with h | h | h
  · exact h ▸ hexDigit_isLowerHex _ (Nat.mod_lt _ (by omega))
  · exact h ▸ hexDigit_isLowerHex _ (Nat.mod_lt _ (by omega))
  · cases h

theorem make_cache_key_ok {name : String} {kw : List (String × PyVal)} {k : String}
    (h : make_cache_key name kw = .ok k) :
    ∃ cs, dumpSpaced (canonicalize (.dict kw)) = .ok cs ∧
      k = name ++ "__" ++ md5Hexdigest ⟨cs⟩ := by
  unfold make_cache_key at h
  cases hd : dumpSpaced (canonicalize (.dict kw)) with
  | error e => rw [hd] at h; cases h
  | ok cs => rw [hd] at h; exact ⟨cs, rfl, (Except.ok.injEq _ _ ▸ h).symm⟩

/-- C7: a structured and an otherwise identical unstructured request derive
different cache keys; the two namespace prefixes have different lengths
while both digests have length 32, so the keys differ in length. -/
theorem namespace_separation (model : String) (messages : PyVal) (rf : SchemaModel)
    (kwargs : List (String × PyVal)) (k1 k2 : String)
    (h1 : make_chat_completion_key model messages (some rf) kwargs = .ok k1)
    (h2 : make_chat_completion_key model messages none kwargs = .ok k2) :
    k1 ≠ k2 := by
  unfold make_chat_completion_key at h1 h2
  obtain ⟨cs1, _, hk1⟩ := make_cache_key_ok h1
  obtain ⟨cs2, _, hk2⟩ := make_cache_key_ok h2
  intro he
  have hlen : k1.length = k2.length := by rw [he]
  rw [hk1, hk2] at hlen
  have e1 : ("openai_chat_completion_structured" : String).length = 33 := rfl
  have e2 : ("openai_chat_completion" : String).length = 22 := rfl
  have e3 : ("__" : String).length = 2 := rfl
  simp only [String.length_append, md5Hexdigest_length, e1, e2, e3] at hlen
  omega

/-- C7 witness schema. -/
def sampleSchema : SchemaModel where
  jsonSchema := .dict [("type", .str "object")]
  validate v :=
    match v with
    | .dict kvs => .ok (.dict kvs)
    | _ => .error "Input should be an object"

theorem namespace_separation_witness :
    make_chat_completion_key "m" (.list []) (some sampleSchema) [] =
      .ok "openai_chat_completion_structured__4c18c2b15e85f77fe21be0476de88597" ∧
    make_chat_completion_key "m" (.list []) none [] =
      .ok "openai_chat_completion__afa439ccc18a0e021ac6f1302d273183" ∧
    "openai_chat_completion_structured__4c18c2b15e85f77fe21be0476de88597" ≠
      "openai_chat_completion__afa439ccc18a0e021ac6f1302d273183" :=
  ⟨by rfl, by rfl,
   namespace_separation "m" (.list []) sampleSchema [] _ _ (by rfl) (by rfl)⟩

/-! Key format (C2). -/

/-- The parameter dict whose canonical serialization is hashed by
`make_chat_completion_key`. -/
def hashedParams (model : String) (messages : PyVal) (rf : Option SchemaModel)
    (kwargs : List (String × PyVal)) : List (String × PyVal) :=
  let base := pyDictFold [("model", .str model), ("messages", messages)] kwargs
  match rf with
  | some s => pyDictInsert base "response_format" s.jsonSchema
  | none => base

theorem lookupField_append_self (d : List (String × PyVal)) (k : String) (v : PyVal)
    (h : d.any (fun p => p.1 = k) = false) :
    lookupField (d ++ [(k, v)]) k = some v := by
  induction d with
  | nil => simp [lookupField]
  | cons p rest ih =>
    simp only [List.any_cons, Bool.or_eq_false_iff, decide_eq_false_iff_not] at h
    simp only [List.cons_append, lookupField, if_neg h.1]
    exact ih h.2

theorem lookupField_cons (k1 : String) (v1 : PyVal) (rest : List (String × PyVal))
    (k : String) :
    lookupField ((k1, v1) :: rest) k = if k1 = k then some v1 else lookupField rest k := rfl

theorem lookupField_replace (d : List (String × PyVal)) (k : String) (v : PyVal)
    (h : d.any (fun p => p.1 = k) = true) :
    lookupField (d.map (fun p => if p.1 = k then (k, v) else p)) k = some v := by
  induction d with
  | nil => simp at h
  | cons p rest ih =>
    obtain ⟨p1, p2⟩ := p
    by_cases hp : p1 = k
    · subst hp
      simp only [List.map_cons, if_pos trivial]
      rw [lookupField_cons, if_pos rfl]
    · simp only [List.any_cons, Bool.or_eq_true, decide_eq_true_eq] at h
      rcases h with h | h
      · exact absurd h hp
      · simp only [List.map_cons, if_neg hp]
        rw [lookupField_cons, if_neg hp]
        exact ih h

theorem lookupField_pyDictInsert (d : List (String × PyVal)) (k : String) (v : PyVal) :
    lookupField (pyDictInsert d k v) k = some v := by
  unfold pyDictInsert
  cases h : d.any (fun p => p.1 = k) with
  | true =>
    rw [if_pos rfl]
    exact lookupField_replace d k v h
  | false =>
    rw [if_neg (by simp)]
    exact lookupField_append_self d k v h

/-- C2 (amended): a successfully derived cache key is the namespace literal
`"openai_chat_completion_structured"` (schema supplied, its JSON schema
folded into the hashed params under `"response_format"`) or
`"openai_chat_completion"` (no schema, no schema field added), followed by
two underscores and the 32-character lowercase-hex MD5 digest of the
canonical serialization of the parameters. -/
theorem chat_completion_key_format (model : String) (messages : PyVal)
    (rf : Option SchemaModel) (kwargs : List (String × PyVal)) (k : String)
    (hk : make_chat_completion_key model messages rf kwargs = .ok k) :
    ∃ cs,
      dumpSpaced (canonicalize (.dict (hashedParams model messages rf kwargs))) = .ok cs ∧
      k = (match rf with
           | some _ => "openai_chat_completion_structured"
           | none => "openai_chat_completion") ++ "__" ++ md5Hexdigest ⟨cs⟩ ∧
      (md5Hexdigest (⟨cs⟩ : String)).length = 32 ∧
      (md5Hexdigest (⟨cs⟩ : String)).data.all isLowerHexChar = true ∧
      (∀ s, rf = some s →
        lookupField (hashedParams model messages rf kwargs) "response_format" =
          some s.jsonSchema) ∧
      (rf = none → hashedParams model messages rf kwargs =
        pyDictFold [("model", .str model), ("messages", messages)] kwargs) := by
  cases rf with
  | some s =>
    obtain ⟨cs, hd, hkk⟩ := make_cache_key_ok hk
    refine ⟨cs, hd, hkk, md5Hexdigest_length _, md5Hexdigest_lowerHex _, ?_, ?_⟩
    · intro s2 hs2
      injection hs2 with hs2
      subst hs2
      exact lookupField_pyDictInsert _ _ _
    · intro h
      exact Option.noConfusion h
  | none =>
    obtain ⟨cs, hd, hkk⟩ := make_cache_key_ok hk
    refine ⟨cs, hd, hkk, md5Hexdigest_length _, md5Hexdigest_lowerHex _, ?_, ?_⟩
    · intro s2 hs2
      exact Option.noConfusion hs2
    · intro _
      rfl

theorem chat_completion_key_format_witness :
    ∃ cs,
      dumpSpaced (canonicalize (.dict (hashedParams "m" (.list []) (some sampleSchema) []))) =
        .ok cs ∧
      "openai_chat_completion_structured__4c18c2b15e85f77fe21be0476de88597" =
        (match some sampleSchema with
         | some _ => "openai_chat_completion_structured"
         | none => "openai_chat_completion") ++ "__" ++ md5Hexdigest ⟨cs⟩ ∧
      (md5Hexdigest (⟨cs⟩ : String)).length = 32 ∧
      (md5Hexdigest (⟨cs⟩ : String)).data.all isLowerHexChar = true ∧
      (∀ s, some sampleSchema = some s →
        lookupField (hashedParams "m" (.list []) (some sampleSchema) []) "response_format" =
          some s.jsonSchema) ∧
      (some sampleSchema = none → hashedParams "m" (.list []) (some sampleSchema) [] =
        pyDictFold [("model", .str "m"), ("messages", .list [])] []) :=
  chat_completion_key_format "m" (.list []) (some sampleSchema) [] _ (by rfl)

/-- C2 counterexample: the claim's namespace literal `"chat_completion"` is
not the one the code uses; at a concrete schema-free request the derived key
carries the `"openai_chat_completion"` prefix, which differs from the key
the claim asserts. -/
theorem chat_completion_key_prefix_counterexample :
    make_chat_completion_key "m" (.list []) none [] =
      .ok ("openai_chat_completion" ++ "__" ++
        md5Hexdigest "\x7b\"messages\": [], \"model\": \"m\"\x7d") ∧
    ("openai_chat_completion" ++ "__" ++
        md5Hexdigest "\x7b\"messages\": [], \"model\": \"m\"\x7d") ≠
      ("chat_completion" ++ "__" ++
        md5Hexdigest "\x7b\"messages\": [], \"model\": \"m\"\x7d") := by
  constructor
  · rfl
  · intro h
    have hlen := congrArg String.length h
    have e1 : ("openai_chat_completion" : String).length = 22 := rfl
    have e2 : ("chat_completion" : String).length = 15 := rfl
    have e3 : ("__" : String).length = 2 := rfl
    simp only [String.length_append, md5Hexdigest_length, e1, e2, e3] at hlen
    omega

/-! The extractor (C6). -/

/-- C6 counterexample: on an unstructured completion with zero choices,
`extract_response` fails with the `IndexError` raised by `choices[0]`, not
with the unsupported-result `ValueError` the claim asserts for zero
choices. -/
theorem extract_response_empty_counterexample :
    extract_response (.unstructured ⟨"cmpl", [], 0, "m"⟩) = .error .indexError ∧
    ExtractError.indexError ≠ ExtractError.unsupported :=
  ⟨rfl, by decide⟩

/-- C6 (amended): `extract_response` returns the text content of the first
choice of an unstructured completion and the parsed object of the first
choice of a structured completion; an unstructured completion with zero
choices raises `IndexError`, while a structured completion with zero choices
(whose falsy `choices` fails the variant guard) falls through to the
unsupported-result `ValueError`. -/
theorem extract_response_spec (c : Completion) :
    (∀ cc, c = .unstructured cc →
      (cc.choices = [] → extract_response c = .error .indexError) ∧
      (∀ ch rest, cc.choices = ch :: rest →
        extract_response c = .ok (.text ch.message.content))) ∧
    (∀ pc, c = .structured pc →
      (pc.choices = [] → extract_response c = .error .unsupported) ∧
      (∀ ch rest, pc.choices = ch :: rest →
        extract_response c = .ok (.parsedObj ch.message.parsed))) := by
  refine ⟨?_, ?_⟩
  · rintro cc rfl
    refine ⟨fun he => ?_, fun ch rest he => ?_⟩ <;> simp [extract_response, he]
  · rintro pc rfl
    refine ⟨fun he => ?_, fun ch rest he => ?_⟩ <;> simp [extract_response, he]

theorem extract_response_spec_witness :
    extract_response
        (.structured ⟨"cmpl", [⟨"stop", 0, ⟨"assistant", none, none, .dict []⟩⟩], 0, "m"⟩) =
      .ok (.parsedObj (.dict [])) :=
  ((extract_response_spec _).2 _ rfl).2 _ _ rfl

/-! The retry loop (C4, C5). -/

theorem retry_api_call_all_fail (call : Nat → Except String Completion) (msg : Nat → String) :
    ∀ fuel i, (∀ j, j ≤ fuel → call (i + j) = .error (msg (i + j))) →
    retry_api_call call i fuel =
      (.error ("API call failed: " ++ msg (i + fuel)), fuel + 1) := by
  intro fuel
  induction fuel with
  | zero =>
    intro i h
    have h0 := h 0 (Nat.le_refl 0)
    rw [Nat.add_zero] at h0
    simp [retry_api_call, h0]
  | succ n ih =>
    intro i h
    have h0 := h 0 (by omega)
    rw [Nat.add_zero] at h0
    have hrec := ih (i + 1) (fun j hj => by
      have := h (j + 1) (by omega)
      rwa [show i + (j + 1) = i + 1 + j by omega] at this)
    simp only [retry_api_call, h0, hrec]
    rw [show i + 1 + n = i + (n + 1) by omega]

theorem retry_api_call_succeeds (call : Nat → Except String Completion) (c : Completion) :
    ∀ N i fuel, (∀ j, j < N → ∃ e, call (i + j) = .error e) → call (i + N) = .ok c →
    N ≤ fuel → retry_api_call call i fuel = (.ok c, N + 1) := by
  intro N
  induction N with
  | zero =>
    intro i fuel _ hs _
    rw [Nat.add_zero] at hs
    cases fuel <;> simp [retry_api_call, hs]
  | succ n ih =>
    intro i fuel hf hs hle
    obtain ⟨e0, he0⟩ := hf 0 (by omega)
    rw [Nat.add_zero] at he0
    cases fuel with
    | zero => omega
    | succ f =>
      have hrec := ih (i + 1) f
        (fun j hj => by
          obtain ⟨e, he⟩ := hf (j + 1) (by omega)
          exact ⟨e, by rwa [show i + 1 + j = i + (j + 1) by omega]⟩)
        (by rwa [show i + 1 + n = i + (n + 1) by omega])
        (by omega)
      simp [retry_api_call, he0, hrec]

/-- C4: when the retry policy is exhausted (every attempt the fuel allows
fails), `get_completion` on a miss surfaces `APICallError` wrapping the last
original failure's message, and the persistent store is returned
unchanged — the cache write only happens after a successful upstream
call. -/
theorem upstream_failure_no_write (client : Bool → Nat → Except String Completion)
    (fuel : Nat) (store : Store) (model : String) (messages : PyVal)
    (response_format : Option SchemaModel) (kwargs : List (String × PyVal))
    (ck : String) (msg : Nat → String)
    (hkey : make_chat_completion_key model messages response_format kwargs = .ok ck)
    (hmiss : storeGet store ck = none)
    (hfail : ∀ j, j ≤ fuel → client response_format.isSome j = .error (msg j)) :
    get_completion client fuel store model messages response_format kwargs =
      ⟨.error (.apiCall ("API call failed: " ++ msg fuel)), store, fuel + 1⟩ := by
  have hr := retry_api_call_all_fail (client response_format.isSome) msg fuel 0
    (fun j hj => by rw [Nat.zero_add]; exact hfail j hj)
  rw [Nat.zero_add] at hr
  simp [get_completion, hkey, hmiss, hr]

/-- C5: if the upstream capability fails on its first `N` invocations and
succeeds on invocation `N + 1`, a cache-miss `get_completion` succeeds and
the upstream capability is invoked exactly `N + 1` times; no retry cap other
than the loop's fuel limits this, so any fuel of at least `N` suffices. -/
theorem retry_behavior (client : Bool → Nat → Except String Completion)
    (fuel : Nat) (store : Store) (model : String) (messages : PyVal)
    (response_format : Option SchemaModel) (kwargs : List (String × PyVal))
    (ck : String) (N : Nat) (comp : Completion) (s : String)
    (hkey : make_chat_completion_key model messages response_format kwargs = .ok ck)
    (hmiss : storeGet store ck = none)
    (hfail : ∀ j, j < N → ∃ e, client response_format.isSome j = .error e)
    (hsucc : client response_format.isSome N = .ok comp)
    (hfuel : N ≤ fuel)
    (hser : completion_json comp = .ok s) :
    get_completion client fuel store model messages response_format kwargs =
      ⟨.ok comp, storeSet store ck s, N + 1⟩ := by
  have hr := retry_api_call_succeeds (client response_format.isSome) comp N 0 fuel
    (fun j hj => by rw [Nat.zero_add]; exact hfail j hj)
    (by rwa [Nat.zero_add]) hfuel
  simp [get_completion, hkey, hmiss, hr, hser]

theorem upstream_failure_no_write_witness :
    get_completion (fun _ _ => .error "boom") 2 [] "m" (.list []) none [] =
      ⟨.error (.apiCall ("API call failed: " ++ "boom")), [], 2 + 1⟩ :=
  upstream_failure_no_write (fun _ _ => .error "boom") 2 [] "m" (.list []) none []
    "openai_chat_completion__afa439ccc18a0e021ac6f1302d273183" (fun _ => "boom")
    (by rfl) rfl (fun _ _ => rfl)

/-- A concrete unstructured completion used by witnesses. -/
def sampleCompletion : Completion :=
  .unstructured ⟨"cmpl", [⟨"stop", 0, ⟨"assistant", some "hi", none⟩⟩], 5, "m"⟩

/-- A concrete upstream stub failing twice before succeeding. -/
def flakyClient : Bool → Nat → Except String Completion :=
  fun _ i => if i < 2 then .error "boom" else .ok sampleCompletion

theorem retry_behavior_witness :
    get_completion flakyClient 5 [] "m" (.list []) none [] =
      ⟨.ok sampleCompletion,
       storeSet [] "openai_chat_completion__afa439ccc18a0e021ac6f1302d273183"
         "\x7b\"id\":\"cmpl\",\"choices\":[\x7b\"finish_reason\":\"stop\",\"index\":0,\"message\":\x7b\"content\":\"hi\",\"refusal\":null,\"role\":\"assistant\"\x7d\x7d],\"created\":5,\"model\":\"m\"\x7d",
       2 + 1⟩ :=
  retry_behavior flakyClient 5 [] "m" (.list []) none []
    "openai_chat_completion__afa439ccc18a0e021ac6f1302d273183" 2 sampleCompletion
    "\x7b\"id\":\"cmpl\",\"choices\":[\x7b\"finish_reason\":\"stop\",\"index\":0,\"message\":\x7b\"content\":\"hi\",\"refusal\":null,\"role\":\"assistant\"\x7d\x7d],\"created\":5,\"model\":\"m\"\x7d"
    (by rfl) rfl
    (fun j hj => ⟨"boom", by simp [flakyClient, hj]⟩)
    (by rfl) (by omega) (by rfl)

/-! Key determinism (C1). -/

theorem char_toNat_inj {a b : Char} (h : a.toNat = b.toNat) : a = b := by
  apply Char.ext
  have h2 : a.val.toBitVec = b.val.toBitVec := by
    apply BitVec.eq_of_toNat_eq
    exact h
  exact UInt32.eq_of_toBitVec_eq h2

theorem charListLe_total (a : List Char) : ∀ b, charListLe a b = true ∨ charListLe b a = true := by
  induction a with
  | nil => intro b; left; rfl
  | cons x xs ih =>
    intro b
    cases b with
    | nil => right; rfl
    | cons y ys =>
      simp only [charListLe]
      by_cases h1 : x.toNat < y.toNat
      · left; rw [if_pos h1]
      · by_cases h2 : y.toNat < x.toNat
        · right; rw [if_pos h2]
        · rw [if_neg h1, if_neg h2, if_neg h2, if_neg h1]
          exact ih ys

theorem charListLe_trans (a : List Char) :
    ∀ b c, charListLe a b = true → charListLe b c = true → charListLe a c = true := by
  induction a with
  | nil => intro b c _ _; rfl
  | cons x xs ih =>
    intro b c hab hbc
    cases b with
    | nil => simp [charListLe] at hab
    | cons y ys =>
      cases c with
      | nil => simp [charListLe] at hbc
      | cons z zs =>
        simp only [charListLe] at hab hbc ⊢
        by_cases h1 : x.toNat < y.toNat
        · by_cases h2 : y.toNat < z.toNat
          · rw [if_pos (show x.toNat < z.toNat by omega)]
          · by_cases h3 : z.toNat < y.toNat
            · rw [if_neg h2, if_pos h3] at hbc; cases hbc
            · rw [if_pos (show x.toNat < z.toNat by omega)]
        · by_cases h4 : y.toNat < x.toNat
          · rw [if_neg h1, if_pos h4] at hab; cases hab
          · rw [if_neg h1, if_neg h4] at hab
            by_cases h2 : y.toNat < z.toNat
            · rw [if_pos (show x.toNat < z.toNat by omega)]
            · by_cases h3 : z.toNat < y.toNat
              · rw [if_neg h2, if_pos h3] at hbc; cases hbc
              · rw [if_neg h2, if_neg h3] at hbc
                rw [if_neg (show ¬x.toNat < z.toNat by omega),
                  if_neg (show ¬z.toNat < x.toNat by omega)]
                exact ih ys zs hab hbc

theorem charListLe_antisymm (a : List Char) :
    ∀ b, charListLe a b = true → charListLe b a = true → a = b := by
  induction a with
  | nil =>
    intro b _ hba
    cases b with
    | nil => rfl
    | cons y ys => simp [charListLe] at hba
  | cons x xs ih =>
    intro b hab hba
    cases b with
    | nil => simp [charListLe] at hab
    | cons y ys =>
      simp only [charListLe] at hab hba
      by_cases h1 : x.toNat < y.toNat
      · rw [if_neg (show ¬y.toNat < x.toNat by omega), if_pos h1] at hba; cases hba
      · by_cases h2 : y.toNat < x.toNat
        · rw [if_neg h1, if_pos h2] at hab; cases hab
        · rw [if_neg h1, if_neg h2] at hab
          rw [if_neg h2, if_neg h1] at hba
          have hxy : x = y := char_toNat_inj (by omega)
          rw [hxy, ih ys hab hba]

theorem strLeb_antisymm {a b : String} (h1 : strLeb a b = true) (h2 : strLeb b a = true) :
    a = b := by
  have hd := charListLe_antisymm a.data b.data h1 h2
  cases a
  cases b
  exact congrArg String.mk hd

instance : IsTotal (String × PyVal) keyLe :=
  ⟨fun a b => charListLe_total a.1.data b.1.data⟩

instance : IsTrans (String × PyVal) keyLe :=
  ⟨fun a b c hab hbc => charListLe_trans a.1.data b.1.data c.1.data hab hbc⟩

theorem canonKvs_eq_map (l : List (String × PyVal)) :
    canonKvs l = l.map (fun kv => (kv.1, canonicalize kv.2)) := by
  induction l with
  | nil => rfl
  | cons kv rest ih => simp [canonKvs, ih]

theorem sortedKeys_eq_of_perm (l1 l2 : List (String × PyVal))
    (hp : l1.Perm l2)
    (hs1 : List.Sorted keyLe l1) (hs2 : List.Sorted keyLe l2)
    (hnd : (l1.map Prod.fst).Nodup) : l1 = l2 := by
  have hnd2 : (l2.map Prod.fst).Nodup := ((hp.map Prod.fst).nodup_iff).mp hnd
  have hne1 : l1.Pairwise (fun a b : String × PyVal => a.1 ≠ b.1) := List.pairwise_map.mp hnd
  have hne2 : l2.Pairwise (fun a b : String × PyVal => a.1 ≠ b.1) := List.pairwise_map.mp hnd2
  have hA : l1.Pairwise (fun a b => keyLe a b ∧ a.1 ≠ b.1) := hs1.and hne1
  have hB : l2.Pairwise (fun a b => keyLe a b ∧ a.1 ≠ b.1) := hs2.and hne2
  letI : IsAntisymm (String × PyVal) (fun a b => keyLe a b ∧ a.1 ≠ b.1) :=
    ⟨fun _ _ hab hba => absurd (strLeb_antisymm hab.1 hba.1) hab.2⟩
  exact List.eq_of_perm_of_sorted hp hA hB

theorem canonicalize_dict_eq_of_perm (d1 d2 : List (String × PyVal))
    (hp : d1.Perm d2) (hnd : (d1.map Prod.fst).Nodup) :
    canonicalize (.dict d1) = canonicalize (.dict d2) := by
  show PyVal.dict (List.insertionSort keyLe (canonKvs d1)) =
    PyVal.dict (List.insertionSort keyLe (canonKvs d2))
  congr 1
  have hpc : (canonKvs d1).Perm (canonKvs d2) := by
    rw [canonKvs_eq_map, canonKvs_eq_map]
    exact hp.map _
  have hperm : (List.insertionSort keyLe (canonKvs d1)).Perm
      (List.insertionSort keyLe (canonKvs d2)) :=
    (List.perm_insertionSort keyLe _).trans
      (hpc.trans (List.perm_insertionSort keyLe _).symm)
  have hkeys : ((List.insertionSort keyLe (canonKvs d1)).map Prod.fst).Perm
      (d1.map Prod.fst) := by
    have h1 := (List.perm_insertionSort keyLe (canonKvs d1)).map Prod.fst
    have h2 : (canonKvs d1).map Prod.fst = d1.map Prod.fst := by
      rw [canonKvs_eq_map, List.map_map]
      rfl
    rwa [h2] at h1
  exact sortedKeys_eq_of_perm _ _ hperm
    (List.sorted_insertionSort keyLe _) (List.sorted_insertionSort keyLe _)
    (hkeys.nodup_iff.mpr hnd)

theorem make_cache_key_perm (name : String) (d1 d2 : List (String × PyVal))
    (hp : d1.Perm d2) (hnd : (d1.map Prod.fst).Nodup) :
    make_cache_key name d1 = make_cache_key name d2 := by
  unfold make_cache_key
  rw [canonicalize_dict_eq_of_perm d1 d2 hp hnd]

theorem any_key_eq_false (d : List (String × PyVal)) (k : String)
    (h : k ∉ d.map Prod.fst) : d.any (fun p => p.1 = k) = false := by
  rw [List.any_eq_false]
  intro p hp
  simp only [decide_eq_true_eq]
  intro he
  exact h (he ▸ List.mem_map_of_mem Prod.fst hp)

theorem pyDictInsert_fresh (d : List (String × PyVal)) (k : String) (v : PyVal)
    (h : d.any (fun p => p.1 = k) = false) : pyDictInsert d k v = d ++ [(k, v)] := by
  unfold pyDictInsert
  rw [if_neg (by simp [h])]

theorem pyDictFold_fresh (kw : List (String × PyVal)) :
    ∀ init : List (String × PyVal),
    (∀ p ∈ kw, init.any (fun q => q.1 = p.1) = false) →
    (kw.map Prod.fst).Nodup →
    pyDictFold init kw = init ++ kw := by
  induction kw with
  | nil => intro init _ _; simp [pyDictFold]
  | cons kv rest ih =>
    intro init hfresh hnd
    have hstep : pyDictFold init (kv :: rest) =
        pyDictFold (pyDictInsert init kv.1 kv.2) rest := rfl
    rw [hstep, pyDictInsert_fresh init kv.1 kv.2 (hfresh kv (by simp))]
    simp only [List.map_cons, List.nodup_cons] at hnd
    rw [ih (init ++ [(kv.1, kv.2)]) ?_ hnd.2]
    · simp
    · intro p hp
      rw [List.any_append]
      rw [hfresh p (by simp [hp])]
      simp only [Bool.false_or, List.any_cons, List.any_nil, Bool.or_false,
        decide_eq_false_iff_not]
      intro he
      exact hnd.1 (he ▸ List.mem_map_of_mem Prod.fst hp)

/-- C1: the derived cache key is a pure function of the request's model,
messages, schema and extra-parameter mapping, independent of the insertion
order of the extra parameters (`json.dumps` with `sort_keys=True` serializes
the parameter dict by sorted key).  The hypotheses say that `kw1` and `kw2`
are the same mapping listed in different orders, and that the mapping is a
genuine `**kwargs` dict: its keys are distinct and cannot repeat the
explicit `model`, `messages` and `response_format` keywords. -/
theorem key_determinism (model : String) (messages : PyVal) (rf : Option SchemaModel)
    (kw1 kw2 : List (String × PyVal))
    (hperm : kw1.Perm kw2)
    (hnd : (kw1.map Prod.fst).Nodup)
    (hm : "model" ∉ kw1.map Prod.fst)
    (hms : "messages" ∉ kw1.map Prod.fst)
    (hrf : "response_format" ∉ kw1.map Prod.fst) :
    make_chat_completion_key model messages rf kw1 =
      make_chat_completion_key model messages rf kw2 := by
  have hkeysperm : (kw1.map Prod.fst).Perm (kw2.map Prod.fst) := hperm.map _
  have hnd2 := hkeysperm.nodup_iff.mp hnd
  have hm2 : "model" ∉ kw2.map Prod.fst := fun h => hm (hkeysperm.mem_iff.mpr h)
  have hms2 : "messages" ∉ kw2.map Prod.fst := fun h => hms (hkeysperm.mem_iff.mpr h)
  have hrf2 : "response_format" ∉ kw2.map Prod.fst := fun h => hrf (hkeysperm.mem_iff.mpr h)
  have hfreshinit : ∀ (kw : List (String × PyVal)),
      "model" ∉ kw.map Prod.fst → "messages" ∉ kw.map Prod.fst →
      ∀ p ∈ kw, ([("model", PyVal.str model), ("messages", messages)]).any
        (fun q => q.1 = p.1) = false := by
    intro kw hkm hkms p hp
    simp only [List.any_cons, List.any_nil, Bool.or_false, Bool.or_eq_false_iff,
      decide_eq_false_iff_not]
    constructor
    · intro he
      exact hkm (he ▸ List.mem_map_of_mem Prod.fst hp)
    · intro he
      exact hkms (he ▸ List.mem_map_of_mem Prod.fst hp)
  have hbase1 := pyDictFold_fresh kw1 [("model", PyVal.str model), ("messages", messages)]
    (hfreshinit kw1 hm hms) hnd
  have hbase2 := pyDictFold_fresh kw2 [("model", PyVal.str model), ("messages", messages)]
    (hfreshinit kw2 hm2 hms2) hnd2
  have hbperm : ([("model", PyVal.str model), ("messages", messages)] ++ kw1).Perm
      ([("model", PyVal.str model), ("messages", messages)] ++ kw2) :=
    hperm.append_left _
  have hconsnd : ("model" :: "messages" :: List.map Prod.fst kw1).Nodup := by
    rw [List.nodup_cons, List.nodup_cons]
    refine ⟨?_, hms, hnd⟩
    intro h
    rcases List.mem_cons.mp h with h | h
    · exact absurd h (by decide)
    · exact hm h
  have hbnd : ((([("model", PyVal.str model), ("messages", messages)] ++ kw1)).map
      Prod.fst).Nodup := by
    have hk : (List.map Prod.fst ([("model", PyVal.str model), ("messages", messages)] ++ kw1)) =
        "model" :: "messages" :: List.map Prod.fst kw1 := by simp
    rw [hk]
    exact hconsnd
  cases rf with
  | none =>
    simp only [make_chat_completion_key]
    rw [hbase1, hbase2]
    exact make_cache_key_perm _ _ _ hbperm hbnd
  | some s =>
    simp only [make_chat_completion_key]
    rw [hbase1, hbase2]
    have hfr1 : (([("model", PyVal.str model), ("messages", messages)] ++ kw1)).any
        (fun p => p.1 = "response_format") = false := by
      rw [List.any_append]
      rw [any_key_eq_false kw1 _ hrf]
      simp
    have hfr2 : (([("model", PyVal.str model), ("messages", messages)] ++ kw2)).any
        (fun p => p.1 = "response_format") = false := by
      rw [List.any_append]
      rw [any_key_eq_false kw2 _ hrf2]
      simp
    rw [pyDictInsert_fresh _ _ _ hfr1, pyDictInsert_fresh _ _ _ hfr2]
    apply make_cache_key_perm
    · exact hbperm.append_right _
    · have hk : (List.map Prod.fst
          (([("model", PyVal.str model), ("messages", messages)] ++ kw1) ++
            [("response_format", s.jsonSchema)])) =
          ("model" :: "messages" :: List.map Prod.fst kw1) ++ ["response_format"] := by simp
      rw [hk, List.nodup_append]
      refine ⟨hconsnd, by simp, ?_⟩
      intro a ha hb
      rw [List.mem_singleton] at hb
      subst hb
      rcases List.mem_cons.mp ha with h | h
      · exact absurd h (by decide)
      · rcases List.mem_cons.mp h with h | h
        · exact absurd h (by decide)
        · exact hrf h

theorem key_determinism_witness :
    make_chat_completion_key "m" (.list []) none
        [("b", .int 1), ("a", .str "x")] =
      make_chat_completion_key "m" (.list []) none
        [("a", .str "x"), ("b", .int 1)] :=
  key_determinism "m" (.list []) none _ _
    (List.Perm.swap _ _ _) (by decide) (by decide) (by decide) (by decide)

/-! Serialization failure (C9). -/

theorem serializableKvs_eq_all (l : List (String × PyVal)) :
    serializableKvs l = l.all (fun kv => serializable kv.2) := by
  induction l with
  | nil => rfl
  | cons kv rest ih =>
    obtain ⟨k, v⟩ := kv
    simp [serializableKvs, ih]

theorem all_eq_of_perm {α : Type} {l1 l2 : List α} (p : α → Bool) (h : l1.Perm l2) :
    l1.all p = l2.all p := by
  cases hb : l2.all p with
  | true =>
    rw [List.all_eq_true] at hb ⊢
    intro x hx
    exact hb x (h.mem_iff.mp hx)
  | false =>
    rw [List.all_eq_false] at hb ⊢
    obtain ⟨x, hx, hpx⟩ := hb
    exact ⟨x, h.mem_iff.mpr hx, hpx⟩

theorem serializableKvs_perm {l1 l2 : List (String × PyVal)} (h : l1.Perm l2) :
    serializableKvs l1 = serializableKvs l2 := by
  rw [serializableKvs_eq_all, serializableKvs_eq_all]
  exact all_eq_of_perm _ h

mutual
theorem serializable_canonicalize : ∀ v, serializable (canonicalize v) = serializable v
  | .null => rfl
  | .bool _ => rfl
  | .int _ => rfl
  | .str _ => rfl
  | .obj _ => rfl
  | .list xs => by
    show serializableList (canonList xs) = serializableList xs
    exact serializableList_canonList xs
  | .dict kvs => by
    show serializableKvs (List.insertionSort keyLe (canonKvs kvs)) = serializableKvs kvs
    rw [serializableKvs_perm (List.perm_insertionSort keyLe (canonKvs kvs))]
    exact serializableKvs_canonKvs kvs

theorem serializableList_canonList : ∀ xs, serializableList (canonList xs) = serializableList xs
  | [] => rfl
  | x :: xs => by
    show (serializable (canonicalize x) && serializableList (canonList xs)) =
      (serializable x && serializableList xs)
    rw [serializable_canonicalize x, serializableList_canonList xs]

theorem serializableKvs_canonKvs : ∀ kvs, serializableKvs (canonKvs kvs) = serializableKvs kvs
  | [] => rfl
  | (_, v) :: kvs => by
    show (serializable (canonicalize v) && serializableKvs (canonKvs kvs)) =
      (serializable v && serializableKvs kvs)
    rw [serializable_canonicalize v, serializableKvs_canonKvs kvs]
end

mutual
theorem dumpSpaced_ok_serializable :
    ∀ v cs, dumpSpaced v = .ok cs → serializable v = true
  | .null, _, _ => rfl
  | .bool true, _, _ => rfl
  | .bool false, _, _ => rfl
  | .int _, _, _ => rfl
  | .str _, _, _ => rfl
  | .obj _, _, h => by cases h
  | .list xs, cs, h => by
    show serializableList xs = true
    cases hb : dumpSpacedList xs with
    | error e => rw [dumpSpaced, hb] at h; cases h
    | ok body => exact dumpSpacedList_ok_serializable xs body hb
  | .dict kvs, cs, h => by
    show serializableKvs kvs = true
    cases hb : dumpSpacedKvs kvs with
    | error e => rw [dumpSpaced, hb] at h; cases h
    | ok body => exact dumpSpacedKvs_ok_serializable kvs body hb

theorem dumpSpacedList_ok_serializable :
    ∀ xs cs, dumpSpacedList xs = .ok cs → serializableList xs = true
  | [], _, _ => rfl
  | [x], cs, h => by
    show (serializable x && serializableList []) = true
    rw [dumpSpaced_ok_serializable x cs h]
    rfl
  | x :: y :: xs, cs, h => by
    show (serializable x && serializableList (y :: xs)) = true
    cases hx : dumpSpaced x with
    | error e => rw [dumpSpacedList, hx] at h; cases h
    | ok cx =>
      cases hr : dumpSpacedList (y :: xs) with
      | error e => rw [dumpSpacedList, hx, hr] at h; cases h
      | ok cr =>
        rw [dumpSpaced_ok_serializable x cx hx,
          dumpSpacedList_ok_serializable (y :: xs) cr hr]
        rfl

theorem dumpSpacedKvs_ok_serializable :
    ∀ kvs cs, dumpSpacedKvs kvs = .ok cs → serializableKvs kvs = true
  | [], _, _ => rfl
  | [kv], cs, h => by
    show (serializable kv.2 && serializableKvs []) = true
    cases hx : dumpSpaced kv.2 with
    | error e => rw [dumpSpacedKvs, hx] at h; cases h
    | ok cx =>
      rw [dumpSpaced_ok_serializable kv.2 cx hx]
      rfl
  | kv :: kv2 :: kvs, cs, h => by
    show (serializable kv.2 && serializableKvs (kv2 :: kvs)) = true
    cases hx : dumpSpaced kv.2 with
    | error e => rw [dumpSpacedKvs, hx] at h; cases h
    | ok cx =>
      cases hr : dumpSpacedKvs (kv2 :: kvs) with
      | error e => rw [dumpSpacedKvs, hx, hr] at h; cases h
      | ok cr =>
        rw [dumpSpaced_ok_serializable kv.2 cx hx,
          dumpSpacedKvs_ok_serializable (kv2 :: kvs) cr hr]
        rfl
end

theorem dumpSpaced_error_of_not_serializable (v : PyVal) (h : serializable v = false) :
    ∃ e, dumpSpaced v = .error e := by
  cases hd : dumpSpaced v with
  | error e => exact ⟨e, rfl⟩
  | ok cs =>
    rw [dumpSpaced_ok_serializable v cs hd] at h
    cases h

theorem serializableKvs_false_of_mem (l : List (String × PyVal)) (k : String) (v : PyVal)
    (hmem : (k, v) ∈ l) (hv : serializable v = false) : serializableKvs l = false := by
  induction l with
  | nil => cases hmem
  | cons kv rest ih =>
    rcases List.mem_cons.mp hmem with h | h
    · rw [← h]
      show (serializable v && serializableKvs rest) = false
      rw [hv]
      rfl
    · obtain ⟨k2, v2⟩ := kv
      show (serializable v2 && serializableKvs rest) = false
      rw [ih h]
      simp

/-- C9: a request whose extra-parameter mapping contains a value the `json`
module cannot serialize makes key derivation fail with the serialization
error, `get_completion` surfaces that error to its caller before touching
the store, the upstream capability is never invoked, and the store is
returned unchanged. -/
theorem serialization_failure (client : Bool → Nat → Except String Completion)
    (fuel : Nat) (store : Store) (model : String) (messages : PyVal)
    (rf : Option SchemaModel) (kwargs : List (String × PyVal)) (k : String) (v : PyVal)
    (hmem : (k, v) ∈ kwargs) (hv : serializable v = false)
    (hnd : (kwargs.map Prod.fst).Nodup)
    (hm : "model" ∉ kwargs.map Prod.fst)
    (hms : "messages" ∉ kwargs.map Prod.fst)
    (hrf : "response_format" ∉ kwargs.map Prod.fst) :
    ∃ e, make_chat_completion_key model messages rf kwargs = .error e ∧
      get_completion client fuel store model messages rf kwargs =
        ⟨.error (.serialization e), store, 0⟩ := by
  have hfreshinit : ∀ p ∈ kwargs, ([("model", PyVal.str model), ("messages", messages)]).any
      (fun q => q.1 = p.1) = false := by
    intro p hp
    simp only [List.any_cons, List.any_nil, Bool.or_false, Bool.or_eq_false_iff,
      decide_eq_false_iff_not]
    exact ⟨fun he => hm (he ▸ List.mem_map_of_mem Prod.fst hp),
      fun he => hms (he ▸ List.mem_map_of_mem Prod.fst hp)⟩
  have hbase := pyDictFold_fresh kwargs [("model", PyVal.str model), ("messages", messages)]
    hfreshinit hnd
  have hkeyerr : ∃ e, make_chat_completion_key model messages rf kwargs = .error e := by
    cases rf with
    | none =>
      have hpmem : (k, v) ∈
          pyDictFold [("model", PyVal.str model), ("messages", messages)] kwargs := by
        rw [hbase]
        exact List.mem_append_right _ hmem
      have hser : serializable (canonicalize
          (.dict (pyDictFold [("model", PyVal.str model), ("messages", messages)] kwargs))) =
          false := by
        rw [serializable_canonicalize]
        exact serializableKvs_false_of_mem _ k v hpmem hv
      obtain ⟨e, he⟩ := dumpSpaced_error_of_not_serializable _ hser
      refine ⟨e, ?_⟩
      show make_cache_key "openai_chat_completion"
        (pyDictFold [("model", PyVal.str model), ("messages", messages)] kwargs) = .error e
      simp [make_cache_key, he]
    | some s =>
      have hpmem : (k, v) ∈ pyDictInsert
          (pyDictFold [("model", PyVal.str model), ("messages", messages)] kwargs)
          "response_format" s.jsonSchema := by
        rw [hbase, pyDictInsert_fresh]
        · exact List.mem_append_left _ (List.mem_append_right _ hmem)
        · rw [List.any_append, any_key_eq_false kwargs _ hrf]
          simp
      have hser : serializable (canonicalize (.dict (pyDictInsert
          (pyDictFold [("model", PyVal.str model), ("messages", messages)] kwargs)
          "response_format" s.jsonSchema))) = false := by
        rw [serializable_canonicalize]
        exact serializableKvs_false_of_mem _ k v hpmem hv
      obtain ⟨e, he⟩ := dumpSpaced_error_of_not_serializable _ hser
      refine ⟨e, ?_⟩
      show make_cache_key "openai_chat_completion_structured"
        (pyDictInsert (pyDictFold [("model", PyVal.str model), ("messages", messages)] kwargs)
          "response_format" s.jsonSchema) = .error e
      simp [make_cache_key, he]
  obtain ⟨e, hkey⟩ := hkeyerr
  exact ⟨e, hkey, by simp [get_completion, hkey]⟩

/-! The structured cache-hit path (C3, C10). -/

theorem mapM_ok_forall₂ {α β : Type} {f : α → Except String β} :
    ∀ {l : List α} {l2 : List β}, l.mapM f = .ok l2 →
    List.Forall₂ (fun a b => f a = .ok b) l l2 := by
  intro l
  induction l with
  | nil =>
    intro l2 h
    cases h
    exact List.Forall₂.nil
  | cons x xs ih =>
    intro l2 h
    rw [List.mapM_cons] at h
    cases hfx : f x with
    | error e => rw [hfx] at h; cases h
    | ok b =>
      rw [hfx, show ((Except.ok b : Except String β) >>= fun b =>
        (xs.mapM f >>= fun bs => pure (b :: bs))) =
        (xs.mapM f >>= fun bs => pure (b :: bs)) from rfl] at h
      cases hxs : xs.mapM f with
      | error e => rw [hxs] at h; cases h
      | ok bs =>
        rw [hxs, show ((Except.ok bs : Except String (List β)) >>= fun bs =>
          (pure (b :: bs) : Except String (List β))) = .ok (b :: bs) from rfl] at h
        cases h
        exact List.Forall₂.cons hfx (ih hxs)

theorem mapM_ok_of_forall {α : Type} {f : α → Except String α} :
    ∀ {l : List α}, (∀ x ∈ l, f x = .ok x) → l.mapM f = .ok l := by
  intro l
  induction l with
  | nil => intro _; rfl
  | cons x xs ih =>
    intro h
    rw [List.mapM_cons, h x (List.mem_cons_self x xs),
      show ((Except.ok x : Except String α) >>= fun b =>
        (xs.mapM f >>= fun bs => pure (b :: bs))) =
        (xs.mapM f >>= fun bs => pure (x :: bs)) from rfl,
      ih (fun y hy => h y (List.mem_cons_of_mem x hy))]
    rfl

theorem revalidate_choice_ok {rf : SchemaModel} {ch ch2 : ParsedChoice}
    (h : revalidate_choice rf ch = .ok ch2) :
    (pyTruthy ch.message.refusal = true → ch2 = ch) ∧
    (pyTruthy ch.message.refusal = false →
      rf.validate ch.message.parsed = .ok ch2.message.parsed ∧
      ch2.message.content = ch.message.content ∧
      ch2.message.refusal = ch.message.refusal ∧
      ch2.message.role = ch.message.role ∧
      ch2.finish_reason = ch.finish_reason ∧
      ch2.index = ch.index) := by
  unfold revalidate_choice at h
  cases ht : pyTruthy ch.message.refusal with
  | true =>
    rw [ht, if_pos rfl] at h
    injection h with h
    subst h
    refine ⟨fun _ => rfl, fun hf => absurd hf (by simp [ht])⟩
  | false =>
    rw [ht, if_neg (by simp)] at h
    cases hv : rf.validate ch.message.parsed with
    | error e => rw [hv] at h; cases h
    | ok p =>
      rw [hv] at h
      injection h with h
      subst h
      exact ⟨fun htr => absurd htr (by simp [ht]), fun _ => ⟨rfl, rfl, rfl, rfl, rfl, rfl⟩⟩

/-- C3: on a cache hit for a structured request (the branch is selected by
the request's schema presence, and the upstream client is never invoked),
the cached text is deserialized as a `ParsedChatCompletion` and returned
with every falsy-refusal choice's parsed payload re-validated through the
request's schema, while every truthy-refusal choice passes through
unchanged. -/
theorem structured_hit_revalidation (client : Bool → Nat → Except String Completion)
    (fuel : Nat) (store : Store) (model : String) (messages : PyVal)
    (rf : SchemaModel) (kwargs : List (String × PyVal))
    (ck cached : String) (v : PyVal) (c0 : ParsedChatCompletion)
    (chs : List ParsedChoice)
    (hkey : make_chat_completion_key model messages (some rf) kwargs = .ok ck)
    (hhit : storeGet store ck = some cached)
    (hload : json_loads cached = .ok v)
    (hvalid : parsedChatCompletion_validate v = .ok c0)
    (hreval : c0.choices.mapM (revalidate_choice rf) = .ok chs) :
    get_completion client fuel store model messages (some rf) kwargs =
      ⟨.ok (.structured { c0 with choices := chs }), store, 0⟩ ∧
    List.Forall₂ (fun ch0 ch =>
      (pyTruthy ch0.message.refusal = true → ch = ch0) ∧
      (pyTruthy ch0.message.refusal = false →
        rf.validate ch0.message.parsed = .ok ch.message.parsed ∧
        ch.message.content = ch0.message.content ∧
        ch.message.refusal = ch0.message.refusal ∧
        ch.message.role = ch0.message.role ∧
        ch.finish_reason = ch0.finish_reason ∧
        ch.index = ch0.index)) c0.choices chs := by
  constructor
  · simp only [get_completion, hkey, hhit, hit_reconstruct, hload, hvalid, hreval]
  · exact (mapM_ok_forall₂ hreval).imp (fun _ _ h => revalidate_choice_ok h)

theorem revalidate_choice_frame {rf : SchemaModel} {ch ch2 : ParsedChoice}
    (h : revalidate_choice rf ch = .ok ch2) :
    ch2.finish_reason = ch.finish_reason ∧ ch2.index = ch.index ∧
    ch2.message.role = ch.message.role ∧
    ch2.message.content = ch.message.content ∧
    ch2.message.refusal = ch.message.refusal ∧
    (pyTruthy ch.message.refusal = true → ch2.message.parsed = ch.message.parsed) := by
  have hc := revalidate_choice_ok h
  cases ht : pyTruthy ch.message.refusal with
  | true =>
    have := hc.1 ht
    subst this
    exact ⟨rfl, rfl, rfl, rfl, rfl, fun _ => rfl⟩
  | false =>
    obtain ⟨_, h2, h3, h4, h5, h6⟩ := hc.2 ht
    exact ⟨h5, h6, h4, h2, h3, fun htr => absurd htr (by simp [ht])⟩

/-- C10: on the structured cache-hit path, only the parsed payloads of
falsy-refusal choices can differ from the deserialized cached value: the
completion's `id`, `created` and `model`, every choice's `finish_reason`,
`index`, `role`, `content` and `refusal`, and the parsed payload of every
truthy-refusal choice all equal those of the value deserialized from the
cache entry. -/
theorem structured_hit_frame (client : Bool → Nat → Except String Completion)
    (fuel : Nat) (store : Store) (model : String) (messages : PyVal)
    (rf : SchemaModel) (kwargs : List (String × PyVal))
    (ck cached : String) (v : PyVal) (c0 : ParsedChatCompletion)
    (chs : List ParsedChoice)
    (hkey : make_chat_completion_key model messages (some rf) kwargs = .ok ck)
    (hhit : storeGet store ck = some cached)
    (hload : json_loads cached = .ok v)
    (hvalid : parsedChatCompletion_validate v = .ok c0)
    (hreval : c0.choices.mapM (revalidate_choice rf) = .ok chs) :
    get_completion client fuel store model messages (some rf) kwargs =
      ⟨.ok (.structured { c0 with choices := chs }), store, 0⟩ ∧
    ({ c0 with choices := chs } : ParsedChatCompletion).id = c0.id ∧
    ({ c0 with choices := chs } : ParsedChatCompletion).created = c0.created ∧
    ({ c0 with choices := chs } : ParsedChatCompletion).model = c0.model ∧
    List.Forall₂ (fun ch0 ch =>
      ch.finish_reason = ch0.finish_reason ∧ ch.index = ch0.index ∧
      ch.message.role = ch0.message.role ∧
      ch.message.content = ch0.message.content ∧
      ch.message.refusal = ch0.message.refusal ∧
      (pyTruthy ch0.message.refusal = true → ch.message.parsed = ch0.message.parsed))
      c0.choices chs := by
  refine ⟨?_, rfl, rfl, rfl, ?_⟩
  · simp only [get_completion, hkey, hhit, hit_reconstruct, hload, hvalid, hreval]
  · exact (mapM_ok_forall₂ hreval).imp (fun _ _ h => revalidate_choice_frame h)

/-- A concrete structured completion used by the hit-path witnesses: one
falsy-refusal choice whose parsed payload is re-validated and one
truthy-refusal choice that passes through. -/
def sampleParsed : ParsedChatCompletion :=
  ⟨"cmpl", [⟨"stop", 0, ⟨"assistant", some "c1", none, .dict [("a", .int 1)]⟩⟩,
            ⟨"stop", 1, ⟨"assistant", none, some "no", .null⟩⟩], 5, "m"⟩

/-- The serialized form of `sampleParsed` as the cache stores it. -/
def sampleCached : String :=
  "\x7b\"id\":\"cmpl\",\"choices\":[\x7b\"finish_reason\":\"stop\",\"index\":0,\"message\":\x7b\"content\":\"c1\",\"refusal\":null,\"role\":\"assistant\",\"parsed\":\x7b\"a\":1\x7d\x7d\x7d,\x7b\"finish_reason\":\"stop\",\"index\":1,\"message\":\x7b\"content\":null,\"refusal\":\"no\",\"role\":\"assistant\",\"parsed\":null\x7d\x7d],\"created\":5,\"model\":\"m\"\x7d"

/-- A store holding `sampleCached` under the derived structured key. -/
def sampleStore : Store :=
  [("openai_chat_completion_structured__4c18c2b15e85f77fe21be0476de88597", sampleCached)]

theorem structured_hit_revalidation_witness :
    get_completion (fun _ _ => .error "down") 0 sampleStore "m" (.list [])
        (some sampleSchema) [] =
      ⟨.ok (.structured { sampleParsed with choices := sampleParsed.choices }),
       sampleStore, 0⟩ ∧
    List.Forall₂ (fun ch0 ch =>
      (pyTruthy ch0.message.refusal = true → ch = ch0) ∧
      (pyTruthy ch0.message.refusal = false →
        sampleSchema.validate ch0.message.parsed = .ok ch.message.parsed ∧
        ch.message.content = ch0.message.content ∧
        ch.message.refusal = ch0.message.refusal ∧
        ch.message.role = ch0.message.role ∧
        ch.finish_reason = ch0.finish_reason ∧
        ch.index = ch0.index)) sampleParsed.choices sampleParsed.choices :=
  structured_hit_revalidation (fun _ _ => .error "down") 0 sampleStore "m" (.list [])
    sampleSchema []
    "openai_chat_completion_structured__4c18c2b15e85f77fe21be0476de88597"
    sampleCached (completionJsonVal (.structured sampleParsed)) sampleParsed
    sampleParsed.choices
    (by rfl) (by rfl) (by rfl) (by rfl) (by rfl)

theorem structured_hit_frame_witness :
    get_completion (fun _ _ => .error "down") 0 sampleStore "m" (.list [])
        (some sampleSchema) [] =
      ⟨.ok (.structured { sampleParsed with choices := sampleParsed.choices }),
       sampleStore, 0⟩ ∧
    ({ sampleParsed with choices := sampleParsed.choices } : ParsedChatCompletion).id =
      sampleParsed.id ∧
    ({ sampleParsed with choices := sampleParsed.choices } : ParsedChatCompletion).created =
      sampleParsed.created ∧
    ({ sampleParsed with choices := sampleParsed.choices } : ParsedChatCompletion).model =
      sampleParsed.model ∧
    List.Forall₂ (fun ch0 ch =>
      ch.finish_reason = ch0.finish_reason ∧ ch.index = ch0.index ∧
      ch.message.role = ch0.message.role ∧
      ch.message.content = ch0.message.content ∧
      ch.message.refusal = ch0.message.refusal ∧
      (pyTruthy ch0.message.refusal = true → ch.message.parsed = ch0.message.parsed))
      sampleParsed.choices sampleParsed.choices :=
  structured_hit_frame (fun _ _ => .error "down") 0 sampleStore "m" (.list [])
    sampleSchema []
    "openai_chat_completion_structured__4c18c2b15e85f77fe21be0476de88597"
    sampleCached (completionJsonVal (.structured sampleParsed)) sampleParsed
    sampleParsed.choices
    (by rfl) (by rfl) (by rfl) (by rfl) (by rfl)

theorem serialization_failure_witness :
    ∃ e, make_chat_completion_key "m" (.list []) none [("x", .obj "Foo")] = .error e ∧
      get_completion (fun _ _ => .error "boom") 0 [] "m" (.list []) none
          [("x", .obj "Foo")] =
        ⟨.error (.serialization e), [], 0⟩ :=
  serialization_failure (fun _ _ => .error "boom") 0 [] "m" (.list []) none
    [("x", .obj "Foo")] "x" (.obj "Foo") (List.mem_singleton.mpr rfl) rfl
    (by decide) (by decide) (by decide) (by decide)

/-! Serialization round trip (C8): string literals. -/

theorem hexVal_hexDigit : ∀ d, d < 16 → hexVal (hexDigit d) = some d := by decide

theorem exceptMatchMap (t : Except String (List Char × List Char)) (d : Char) :
    (match t with
     | .error e => (.error e : Except String (List Char × List Char))
     | .ok (s, r) => .ok (d :: s, r)) = t.map (fun p => (d :: p.1, p.2)) := by
  cases t with
  | error e => rfl
  | ok p => cases p; rfl

theorem hexVal_lt {h : Char} {a : Nat} (e : hexVal h = some a) : a < 16 := by
  unfold hexVal at e
  split at e
  · rename_i hc
    injection e with e
    have := hc.2
    have h9 : ('9' : Char).toNat = 57 := rfl
    have h0 : ('0' : Char).toNat = 48 := rfl
    have hle : h.toNat ≤ 57 := by
      have := hc.2
      simpa [Char.le_def] using this
    omega
  · split at e
    · rename_i hc
      injection e with e
      have hle : h.toNat ≤ 102 := by
        have := hc.2
        simpa [Char.le_def] using this
      omega
    · split at e
      · rename_i hc
        injection e with e
        have hle : h.toNat ≤ 70 := by
          have := hc.2
          simpa [Char.le_def] using this
        omega
      · cases e

theorem psb_quote (t : List Char) : parseStringBody ('"' :: t) = .ok ([], t) := rfl

theorem psb_backslash (t : List Char) : parseStringBody ('\\' :: t) = parseStringEscape t := rfl

theorem psb_plain (c : Char) (t : List Char) (h1 : c ≠ '"') (h2 : c ≠ '\\') :
    parseStringBody (c :: t) = (parseStringBody t).map (fun p => (c :: p.1, p.2)) := by
  show (if c = '"' then Except.ok ([], t)
    else if c = '\\' then parseStringEscape t
    else match parseStringBody t with
      | .error e => .error e
      | .ok (s, r) => .ok (c :: s, r)) = _
  rw [if_neg h1, if_neg h2, exceptMatchMap]

theorem pse_lit (e d : Char) (t : List Char) (he : (if e = 'u' then none else unescape e) = some d) :
    parseStringEscape (e :: t) = (parseStringBody t).map (fun p => (d :: p.1, p.2)) := by
  by_cases hu : e = 'u'
  · rw [if_pos hu] at he
    cases he
  · rw [if_neg hu] at he
    show (if e = 'u' then parseUnicodeEscape t
      else match unescape e with
        | some d =>
          (match parseStringBody t with
           | .error e => .error e
           | .ok (s, r) => .ok (d :: s, r))
        | none => .error "Invalid escape") = _
    rw [if_neg hu, he]
    dsimp only
    rw [exceptMatchMap]

theorem pse_u (t : List Char) : parseStringEscape ('u' :: t) = parseUnicodeEscape t := rfl

theorem hexVal4_00 (h3 h4 : Char) (a3 a4 : Nat)
    (e3 : hexVal h3 = some a3) (e4 : hexVal h4 = some a4) :
    hexVal4 '0' '0' h3 h4 = some (16 * a3 + a4) := by
  unfold hexVal4
  rw [show hexVal '0' = some 0 from rfl, e3, e4]
  dsimp only
  congr 1
  omega

theorem pue_00 (h3 h4 : Char) (a3 a4 : Nat) (t : List Char)
    (e3 : hexVal h3 = some a3) (e4 : hexVal h4 = some a4) :
    parseUnicodeEscape ('0' :: '0' :: h3 :: h4 :: t) =
      (parseStringBody t).map (fun p => (Char.ofNat (16 * a3 + a4) :: p.1, p.2)) := by
  have b3 := hexVal_lt e3
  have b4 := hexVal_lt e4
  show (match hexVal4 '0' '0' h3 h4 with
    | none => (.error "Invalid hex escape" : Except String (List Char × List Char))
    | some n =>
      if 55296 ≤ n ∧ n < 56320 then parseLowSurrogate n t
      else if 56320 ≤ n ∧ n < 57344 then .error "Unpaired surrogate"
      else
        match parseStringBody t with
        | .error e => .error e
        | .ok (s, r) => .ok (Char.ofNat n :: s, r)) = _
  rw [hexVal4_00 h3 h4 a3 a4 e3 e4]
  dsimp only
  rw [if_neg (by omega), if_neg (by omega), exceptMatchMap]

theorem parseStringBody_escChar (c : Char) (tail : List Char) :
    parseStringBody (escCharRaw c ++ tail) =
      (parseStringBody tail).map (fun p => (c :: p.1, p.2)) := by
  by_cases h1 : c = '"'
  · subst h1
    show parseStringBody ('\\' :: '"' :: tail) = _
    rw [psb_backslash, pse_lit '"' '"' tail (by decide)]
  · by_cases h2 : c = '\\'
    · subst h2
      show parseStringBody ('\\' :: '\\' :: tail) = _
      rw [psb_backslash, pse_lit '\\' '\\' tail (by decide)]
    · by_cases h3 : c = Char.ofNat 8
      · subst h3
        show parseStringBody ('\\' :: 'b' :: tail) = _
        rw [psb_backslash, pse_lit 'b' (Char.ofNat 8) tail (by decide)]
      · by_cases h4 : c = Char.ofNat 9
        · subst h4
          show parseStringBody ('\\' :: 't' :: tail) = _
          rw [psb_backslash, pse_lit 't' (Char.ofNat 9) tail (by decide)]
        · by_cases h5 : c = Char.ofNat 10
          · subst h5
            show parseStringBody ('\\' :: 'n' :: tail) = _
            rw [psb_backslash, pse_lit 'n' (Char.ofNat 10) tail (by decide)]
          · by_cases h6 : c = Char.ofNat 12
            · subst h6
              show parseStringBody ('\\' :: 'f' :: tail) = _
              rw [psb_backslash, pse_lit 'f' (Char.ofNat 12) tail (by decide)]
            · by_cases h7 : c = Char.ofNat 13
              · subst h7
                show parseStringBody ('\\' :: 'r' :: tail) = _
                rw [psb_backslash, pse_lit 'r' (Char.ofNat 13) tail (by decide)]
              · by_cases h8 : c.toNat < 32
                · have hesc : escCharRaw c =
                      '\\' :: 'u' :: '0' :: '0' ::
                        hexDigit (c.toNat / 16 % 16) :: hexDigit (c.toNat % 16) :: [] := by
                    simp only [escCharRaw, h1, h2, h3, h4, h5, h6, h7, if_false, if_pos h8]
                    have z1 : c.toNat / 4096 % 16 = 0 := by omega
                    have z2 : c.toNat / 256 % 16 = 0 := by omega
                    rw [show hex4 c.toNat = [hexDigit (c.toNat / 4096 % 16),
                      hexDigit (c.toNat / 256 % 16), hexDigit (c.toNat / 16 % 16),
                      hexDigit (c.toNat % 16)] from rfl, z1, z2]
                    rfl
                  rw [hesc]
                  show parseStringBody ('\\' :: 'u' :: '0' :: '0' ::
                    hexDigit (c.toNat / 16 % 16) :: hexDigit (c.toNat % 16) :: tail) = _
                  rw [psb_backslash, pse_u,
                    pue_00 _ _ _ _ tail (hexVal_hexDigit _ (by omega)) (hexVal_hexDigit _ (by omega))]
                  have hval : 16 * (c.toNat / 16 % 16) + c.toNat % 16 = c.toNat := by omega
                  rw [hval, Char.ofNat_toNat]
                · have hesc : escCharRaw c = [c] := by
                    simp only [escCharRaw, h1, h2, h3, h4, h5, h6, h7, h8, if_false]
                  rw [hesc]
                  show parseStringBody (c :: tail) = _
                  rw [psb_plain c tail h1 h2]

theorem parseStringBody_escBody (s : List Char) (rest : List Char) :
    parseStringBody (s.flatMap escCharRaw ++ ('"' :: rest)) = .ok (s, rest) := by
  induction s with
  | nil =>
    simp only [List.flatMap_nil, List.nil_append]
    exact psb_quote rest
  | cons c cs ih =>
    rw [List.flatMap_cons, List.append_assoc, parseStringBody_escChar, ih]
    rfl

/-! Serialization round trip (C8): numeric literals. -/

theorem hexDigit_digit : ∀ n, n < 10 →
    (hexDigit n).isDigit = true ∧ (hexDigit n).toNat = 48 + n := by decide

/-- The characters allowed to follow a serialized value without changing how
the parser reads it: not a digit and not a float continuation. -/
def goodNumFollow (rest : List Char) : Prop :=
  ∀ c cs, rest = c :: cs → c.isDigit = false ∧ c ≠ '.' ∧ c ≠ 'e' ∧ c ≠ 'E'

theorem goodNumFollow_nil : goodNumFollow [] := by
  intro c cs h
  cases h

theorem parseDigits_append (ds : List Char) :
    ∀ acc rest, (∀ c ∈ ds, c.isDigit = true) →
    (∀ c cs, rest = c :: cs → c.isDigit = false) →
    parseDigits (ds ++ rest) acc =
      (ds.foldl (fun a c => 10 * a + (c.toNat - 48)) acc, rest) := by
  induction ds with
  | nil =>
    intro acc rest _ hrest
    cases rest with
    | nil => rfl
    | cons c cs =>
      show (if c.isDigit = true then parseDigits cs (10 * acc + (c.toNat - 48))
        else (acc, c :: cs)) = _
      rw [if_neg (by simp [hrest c cs rfl])]
      rfl
  | cons d ds ih =>
    intro acc rest hds hrest
    show (if d.isDigit = true then
        parseDigits (ds ++ rest) (10 * acc + (d.toNat - 48))
      else (acc, d :: (ds ++ rest))) = _
    rw [if_pos (hds d (List.mem_cons_self d ds)), ih _ rest
      (fun c hc => hds c (List.mem_cons_of_mem d hc)) hrest]
    rfl

theorem natCharsAux_digits : ∀ fuel n c, c ∈ natCharsAux fuel n → c.isDigit = true := by
  intro fuel
  induction fuel with
  | zero =>
    intro n c hc
    rw [List.mem_singleton.mp hc]
    exact (hexDigit_digit _ (Nat.mod_lt _ (by omega))).1
  | succ f ih =>
    intro n c hc
    by_cases h : n < 10
    · rw [natCharsAux, if_pos h] at hc
      rw [List.mem_singleton.mp hc]
      exact (hexDigit_digit _ h).1
    · rw [natCharsAux, if_neg h] at hc
      rcases List.mem_append.mp hc with hc | hc
      · exact ih _ c hc
      · rw [List.mem_singleton.mp hc]
        exact (hexDigit_digit _ (Nat.mod_lt _ (by omega))).1

theorem natCharsAux_foldl : ∀ fuel n acc, n ≤ fuel →
    (natCharsAux fuel n).foldl (fun a c => 10 * a + (c.toNat - 48)) acc =
      acc * 10 ^ (natCharsAux fuel n).length + n := by
  intro fuel
  induction fuel with
  | zero =>
    intro n acc hn
    have hn0 : n = 0 := by omega
    subst hn0
    show 10 * acc + ((hexDigit 0).toNat - 48) = acc * 10 ^ ([hexDigit (0 % 10)]).length + 0
    rw [(hexDigit_digit 0 (by omega)).2]
    simp
    ring
  | succ f ih =>
    intro n acc hn
    by_cases h : n < 10
    · rw [natCharsAux, if_pos h]
      show 10 * acc + ((hexDigit n).toNat - 48) = acc * 10 ^ ([hexDigit n]).length + n
      rw [(hexDigit_digit n h).2]
      simp
      ring
    · rw [natCharsAux, if_neg h]
      rw [List.foldl_append, List.length_append]
      rw [ih (n / 10) acc (by omega)]
      show 10 * (acc * 10 ^ (natCharsAux f (n / 10)).length + n / 10) +
          ((hexDigit (n % 10)).toNat - 48) =
        acc * 10 ^ ((natCharsAux f (n / 10)).length + [hexDigit (n % 10)].length) + n
      rw [(hexDigit_digit (n % 10) (Nat.mod_lt _ (by omega))).2]
      have hpow : 10 ^ ((natCharsAux f (n / 10)).length + [hexDigit (n % 10)].length) =
          10 ^ (natCharsAux f (n / 10)).length * 10 := by
        rw [List.length_singleton, pow_succ]
      rw [hpow]
      have hdm : 10 * (n / 10) + n % 10 = n := Nat.div_add_mod n 10
      have e1 : 48 + n % 10 - 48 = n % 10 := by omega
      rw [e1]
      set L := 10 ^ (natCharsAux f (n / 10)).length with hL
      have expand : 10 * (acc * L + n / 10) + n % 10 = 10 * (acc * L) + (10 * (n / 10) + n % 10) := by
        ring
      have expand2 : acc * (L * 10) = 10 * (acc * L) := by
        ring
      rw [expand, expand2, hdm]

theorem natChars_ne_nil (n : Nat) : natChars n ≠ [] := by
  unfold natChars
  cases n with
  | zero => simp [natCharsAux]
  | succ m =>
    rw [natCharsAux]
    by_cases h : m + 1 < 10
    · rw [if_pos h]; simp
    · rw [if_neg h]; simp

theorem natChars_digits (n : Nat) : ∀ c ∈ natChars n, c.isDigit = true :=
  fun c hc => natCharsAux_digits n n c hc

theorem checkIntEnd_good (v : Int) (rest : List Char) (h : goodNumFollow rest) :
    checkIntEnd v rest = .ok (.int v, rest) := by
  cases rest with
  | nil => rfl
  | cons c cs =>
    obtain ⟨_, h2, h3, h4⟩ := h c cs rfl
    show (if c = '.' ∨ c = 'e' ∨ c = 'E' then
        (.error "Float literals are not modelled" : Except String (PyVal × List Char))
      else .ok (.int v, c :: cs)) = _
    rw [if_neg (by simp [h2, h3, h4])]

theorem isDigit_ne_minus {c : Char} (h : c.isDigit = true) : c ≠ '-' := by
  intro he
  subst he
  cases h

theorem parseDigits_natChars (m : Nat) (rest : List Char)
    (hrest : ∀ c cs, rest = c :: cs → c.isDigit = false) :
    parseDigits (natChars m ++ rest) 0 = (m, rest) := by
  rw [show natChars m = natCharsAux m m from rfl]
  rw [parseDigits_append (natCharsAux m m) 0 rest
    (fun c hc => natCharsAux_digits m m c hc) hrest]
  rw [natCharsAux_foldl m m 0 (le_refl m)]
  simp

theorem parseNumber_minus (cs : List Char) :
    parseNumber ('-' :: cs) =
      (match cs with
       | [] => .error "Expecting value"
       | c2 :: _ =>
         if c2.isDigit then
           let (n, rest) := parseDigits cs 0
           checkIntEnd (-(n : Int)) rest
         else .error "Expecting value") := rfl

theorem parseNumber_digit (d : Char) (cs : List Char) (h1 : d ≠ '-') (h2 : d.isDigit = true) :
    parseNumber (d :: cs) =
      (let (n, rest) := parseDigits (d :: cs) 0
       checkIntEnd ((n : Int)) rest) := by
  rw [parseNumber.eq_def]
  dsimp only
  rw [if_neg h1, if_pos h2]

theorem parseNumber_intChars (n : Int) (rest : List Char) (hrest : goodNumFollow rest) :
    parseNumber (intChars n ++ rest) = .ok (.int n, rest) := by
  have hrest' : ∀ c cs, rest = c :: cs → c.isDigit = false :=
    fun c cs h => (hrest c cs h).1
  by_cases hneg : n < 0
  · have hi : intChars n ++ rest = '-' :: (natChars n.natAbs ++ rest) := by
      unfold intChars
      rw [if_pos hneg]
      rfl
    rw [hi, parseNumber_minus]
    obtain ⟨d2, ds2, hds2⟩ : ∃ d2 ds2, natChars n.natAbs = d2 :: ds2 := by
      cases hh : natChars n.natAbs with
      | nil => exact absurd hh (natChars_ne_nil _)
      | cons a b => exact ⟨a, b, rfl⟩
    have hddig : d2.isDigit = true := natChars_digits _ d2 (by rw [hds2]; simp)
    rw [hds2]
    show (if d2.isDigit then
        let p := parseDigits ((d2 :: ds2) ++ rest) 0
        checkIntEnd (-(p.1 : Int)) p.2
      else .error "Expecting value") = _
    rw [if_pos hddig, ← hds2, parseDigits_natChars n.natAbs rest hrest']
    show checkIntEnd (-(n.natAbs : Int)) rest = _
    rw [checkIntEnd_good _ _ hrest,
      show (-(n.natAbs : Int)) = n by omega]
  · have hi : intChars n = natChars n.toNat := by
      unfold intChars
      rw [if_neg hneg]
    rw [hi]
    obtain ⟨d2, ds2, hds2⟩ : ∃ d2 ds2, natChars n.toNat = d2 :: ds2 := by
      cases hh : natChars n.toNat with
      | nil => exact absurd hh (natChars_ne_nil _)
      | cons a b => exact ⟨a, b, rfl⟩
    have hddig : d2.isDigit = true := natChars_digits _ d2 (by rw [hds2]; simp)
    rw [hds2, show (d2 :: ds2) ++ rest = d2 :: (ds2 ++ rest) from rfl,
      parseNumber_digit d2 (ds2 ++ rest) (isDigit_ne_minus hddig) hddig,
      show d2 :: (ds2 ++ rest) = (d2 :: ds2) ++ rest from rfl, ← hds2,
      parseDigits_natChars n.toNat rest hrest']
    show checkIntEnd ((n.toNat : Int)) rest = _
    rw [checkIntEnd_good _ _ hrest, show ((n.toNat : Int)) = n by omega]

/-! Serialization round trip (C8): main induction prerequisites. -/

mutual
/-- Well-formedness of a JSON value for the round trip: serializable and
with distinct keys in every object, as pydantic serialization produces. -/
def jsonWf : PyVal → Bool
  | .null => true
  | .bool _ => true
  | .int _ => true
  | .str _ => true
  | .list xs => jsonWfList xs
  | .dict kvs => decide ((kvs.map Prod.fst).Nodup) && jsonWfKvs kvs
  | .obj _ => false

def jsonWfList : List PyVal → Bool
  | [] => true
  | x :: xs => jsonWf x && jsonWfList xs

def jsonWfKvs : List (String × PyVal) → Bool
  | [] => true
  | (_, v) :: kvs => jsonWf v && jsonWfKvs kvs
end

theorem expectChars_self : ∀ (ls cs : List Char), expectChars ls (ls ++ cs) = .ok cs := by
  intro ls
  induction ls with
  | nil => intro cs; rfl
  | cons l ls ih =>
    intro cs
    show (if l = l then expectChars ls (ls ++ cs) else .error "Expecting value") = _
    rw [if_pos rfl, ih]

theorem skipWs_not_ws (c : Char) (l : List Char) (h : isWs c = false) :
    skipWs (c :: l) = c :: l := by
  show (if isWs c = true then skipWs l else c :: l) = _
  rw [h]
  rfl

theorem isDigit_facts {c : Char} (h : c.isDigit = true) :
    c ≠ 'n' ∧ c ≠ 't' ∧ c ≠ 'f' ∧ c ≠ '"' ∧ c ≠ '[' ∧ c ≠ '{' ∧ isWs c = false ∧
      c ≠ ']' ∧ c ≠ '}' ∧ c ≠ ',' ∧ c ≠ ':' := by
  have hne : ∀ d : Char, d.isDigit = false → c ≠ d := by
    intro d hd he
    subst he
    rw [h] at hd
    cases hd
  refine ⟨hne 'n' rfl, hne 't' rfl, hne 'f' rfl, hne '"' rfl, hne '[' rfl, hne '{' rfl,
    ?_, hne ']' rfl, hne '}' rfl, hne ',' rfl, hne ':' rfl⟩
  have h1 := hne ' ' rfl
  have h2 := hne (Char.ofNat 10) rfl
  have h3 := hne (Char.ofNat 9) rfl
  have h4 := hne (Char.ofNat 13) rfl
  simp [isWs, h1, h2, h3, h4]

/-- Head characters a compact dump can start with. -/
def dumpHead (c : Char) : Prop :=
  c = 'n' ∨ c = 't' ∨ c = 'f' ∨ c = '"' ∨ c = '[' ∨ c = '{' ∨ c = '-' ∨ c.isDigit = true

theorem dumpHead_props {c : Char} (h : dumpHead c) :
    isWs c = false ∧ c ≠ ']' ∧ c ≠ '}' := by
  rcases h with rfl | rfl | rfl | rfl | rfl | rfl | rfl | hd
  · exact ⟨rfl, by decide, by decide⟩
  · exact ⟨rfl, by decide, by decide⟩
  · exact ⟨rfl, by decide, by decide⟩
  · exact ⟨rfl, by decide, by decide⟩
  · exact ⟨rfl, by decide, by decide⟩
  · exact ⟨rfl, by decide, by decide⟩
  · exact ⟨rfl, by decide, by decide⟩
  · obtain ⟨_, _, _, _, _, _, hws, hrb, hrc, _, _⟩ := isDigit_facts hd
    exact ⟨hws, hrb, hrc⟩

theorem natChars_head_digit (n : Nat) {d : Char} {ds : List Char}
    (h : natChars n = d :: ds) : d.isDigit = true :=
  natChars_digits n d (by rw [h]; simp)

theorem dumpCompact_ne_nil : ∀ (v : PyVal), dumpCompact v ≠ .ok [] := by
  intro v
  cases v with
  | null => intro h; cases h
  | bool b => cases b <;> (intro h; cases h)
  | int n =>
    intro h
    rw [show dumpCompact (.int n) = .ok (intChars n) from rfl] at h
    injection h with h
    unfold intChars at h
    by_cases hn : n < 0
    · rw [if_pos hn] at h
      cases h
    · rw [if_neg hn] at h
      exact natChars_ne_nil _ h
  | str s => intro h; cases h
  | list xs =>
    intro h
    rw [dumpCompact] at h
    cases hb : dumpCompactList xs with
    | error e => rw [hb] at h; cases h
    | ok body => rw [hb] at h; cases h
  | dict kvs =>
    intro h
    rw [dumpCompact] at h
    cases hb : dumpCompactKvs kvs with
    | error e => rw [hb] at h; cases h
    | ok body => rw [hb] at h; cases h
  | obj t => intro h; cases h

theorem dumpCompact_head : ∀ (v : PyVal) (c : Char) (cs : List Char),
    dumpCompact v = .ok (c :: cs) → dumpHead c := by
  intro v c cs h
  cases v with
  | null =>
    injection h with h
    rw [show ("null".data) = 'n' :: "ull".data from rfl] at h
    injection h with h1 _
    exact Or.inl h1.symm
  | bool b =>
    cases b with
    | true =>
      injection h with h
      injection h with h1 _
      exact Or.inr (Or.inl h1.symm)
    | false =>
      injection h with h
      injection h with h1 _
      exact Or.inr (Or.inr (Or.inl h1.symm))
  | int n =>
    rw [show dumpCompact (.int n) = .ok (intChars n) from rfl] at h
    injection h with h
    unfold intChars at h
    by_cases hn : n < 0
    · rw [if_pos hn] at h
      injection h with h1 _
      exact Or.inr (Or.inr (Or.inr (Or.inr (Or.inr (Or.inr (Or.inl h1.symm))))))
    · rw [if_neg hn] at h
      have := natChars_head_digit n.toNat h
      exact Or.inr (Or.inr (Or.inr (Or.inr (Or.inr (Or.inr (Or.inr this))))))
  | str s =>
    injection h with h
    injection h with h1 _
    exact Or.inr (Or.inr (Or.inr (Or.inl h1.symm)))
  | list xs =>
    rw [dumpCompact] at h
    cases hb : dumpCompactList xs with
    | error e => rw [hb] at h; cases h
    | ok body =>
      rw [hb] at h
      injection h with h
      injection h with h1 _
      exact Or.inr (Or.inr (Or.inr (Or.inr (Or.inl h1.symm))))
  | dict kvs =>
    rw [dumpCompact] at h
    cases hb : dumpCompactKvs kvs with
    | error e => rw [hb] at h; cases h
    | ok body =>
      rw [hb] at h
      injection h with h
      injection h with h1 _
      exact Or.inr (Or.inr (Or.inr (Or.inr (Or.inr (Or.inl h1.symm)))))
  | obj t => cases h

theorem pyDictFold_nil_eq (kvs : List (String × PyVal))
    (hnd : (kvs.map Prod.fst).Nodup) : pyDictFold [] kvs = kvs := by
  have := pyDictFold_fresh kvs [] (fun p _ => rfl) hnd
  simpa using this

theorem string_mk_data (s : String) : String.mk s.data = s := rfl

theorem dumpCompactList_cons_structure (x : PyVal) (xs : List PyVal) (body : List Char)
    (h : dumpCompactList (x :: xs) = .ok body) :
    ∃ cx tl, dumpCompact x = .ok cx ∧ body = cx ++ tl := by
  cases xs with
  | nil =>
    exact ⟨body, [], by rw [show dumpCompactList [x] = dumpCompact x from rfl] at h; exact h,
      by simp⟩
  | cons y ys =>
    rw [dumpCompactList] at h
    cases hx : dumpCompact x with
    | error e => rw [hx] at h; cases h
    | ok cx =>
      rw [hx] at h
      cases hr : dumpCompactList (y :: ys) with
      | error e =>
        rw [show ((Except.ok cx : Except String (List Char)) >>= fun cx =>
          (dumpCompactList (y :: ys) >>= fun rest => pure (cx ++ (',' :: rest)))) =
          (dumpCompactList (y :: ys) >>= fun rest => pure (cx ++ (',' :: rest))) from rfl,
          hr] at h
        cases h
      | ok cr =>
        rw [show ((Except.ok cx : Except String (List Char)) >>= fun cx =>
          (dumpCompactList (y :: ys) >>= fun rest => pure (cx ++ (',' :: rest)))) =
          (dumpCompactList (y :: ys) >>= fun rest => pure (cx ++ (',' :: rest))) from rfl,
          hr] at h
        injection h with h
        exact ⟨cx, ',' :: cr, rfl, h.symm⟩

theorem dumpCompactKvs_cons_structure (kv : String × PyVal) (kvs : List (String × PyVal))
    (body : List Char) (h : dumpCompactKvs (kv :: kvs) = .ok body) :
    ∃ tl, body = '"' :: tl := by
  cases kvs with
  | nil =>
    rw [dumpCompactKvs] at h
    cases hx : dumpCompact kv.2 with
    | error e => rw [hx] at h; cases h
    | ok cv =>
      rw [hx] at h
      injection h with h
      exact ⟨_, by rw [← h]; rfl⟩
  | cons kv2 kvs2 =>
    rw [dumpCompactKvs] at h
    cases hx : dumpCompact kv.2 with
    | error e => rw [hx] at h; cases h
    | ok cv =>
      rw [hx] at h
      cases hr : dumpCompactKvs (kv2 :: kvs2) with
      | error e =>
        rw [show ((Except.ok cv : Except String (List Char)) >>= fun cv =>
          (dumpCompactKvs (kv2 :: kvs2) >>= fun rest =>
            pure (quoteWith escCharRaw kv.1 ++ (':' :: cv) ++ (',' :: rest)))) =
          (dumpCompactKvs (kv2 :: kvs2) >>= fun rest =>
            pure (quoteWith escCharRaw kv.1 ++ (':' :: cv) ++ (',' :: rest))) from rfl,
          hr] at h
        cases h
      | ok cr =>
        rw [show ((Except.ok cv : Except String (List Char)) >>= fun cv =>
          (dumpCompactKvs (kv2 :: kvs2) >>= fun rest =>
            pure (quoteWith escCharRaw kv.1 ++ (':' :: cv) ++ (',' :: rest)))) =
          (dumpCompactKvs (kv2 :: kvs2) >>= fun rest =>
            pure (quoteWith escCharRaw kv.1 ++ (':' :: cv) ++ (',' :: rest))) from rfl,
          hr] at h
        injection h with h
        exact ⟨_, by rw [← h]; rfl⟩

theorem goodNumFollow_rbrack (r : List Char) : goodNumFollow (']' :: r) := by
  intro c cs h
  injection h with h1 _
  subst h1
  exact ⟨rfl, by decide, by decide, by decide⟩

theorem goodNumFollow_rbrace (r : List Char) : goodNumFollow ('}' :: r) := by
  intro c cs h
  injection h with h1 _
  subst h1
  exact ⟨rfl, by decide, by decide, by decide⟩

theorem goodNumFollow_comma (r : List Char) : goodNumFollow (',' :: r) := by
  intro c cs h
  injection h with h1 _
  subst h1
  exact ⟨rfl, by decide, by decide, by decide⟩

theorem intChars_ne_nil (n : Int) : intChars n ≠ [] := by
  unfold intChars
  by_cases h : n < 0
  · rw [if_pos h]
    simp
  · rw [if_neg h]
    exact natChars_ne_nil _

theorem dumpCompact_list_eq (xs : List PyVal) (cs : List Char)
    (h : dumpCompact (.list xs) = .ok cs) :
    ∃ body, dumpCompactList xs = .ok body ∧ cs = '[' :: (body ++ [']']) := by
  rw [dumpCompact] at h
  cases hb : dumpCompactList xs with
  | error e => rw [hb] at h; cases h
  | ok body =>
    rw [hb] at h
    injection h with h
    exact ⟨body, rfl, h.symm⟩

theorem dumpCompact_dict_eq (kvs : List (String × PyVal)) (cs : List Char)
    (h : dumpCompact (.dict kvs) = .ok cs) :
    ∃ body, dumpCompactKvs kvs = .ok body ∧ cs = '{' :: (body ++ ['}']) := by
  rw [dumpCompact] at h
  cases hb : dumpCompactKvs kvs with
  | error e => rw [hb] at h; cases h
  | ok body =>
    rw [hb] at h
    injection h with h
    exact ⟨body, rfl, h.symm⟩

theorem dumpCompactList_cons2 (x y : PyVal) (ys : List PyVal) (body : List Char)
    (h : dumpCompactList (x :: y :: ys) = .ok body) :
    ∃ cx cr, dumpCompact x = .ok cx ∧ dumpCompactList (y :: ys) = .ok cr ∧
      body = cx ++ (',' :: cr) := by
  rw [dumpCompactList] at h
  cases hx : dumpCompact x with
  | error e => rw [hx] at h; cases h
  | ok cx =>
    rw [hx, show ((Except.ok cx : Except String (List Char)) >>= fun cx =>
      (dumpCompactList (y :: ys) >>= fun rest => pure (cx ++ (',' :: rest)))) =
      (dumpCompactList (y :: ys) >>= fun rest => pure (cx ++ (',' :: rest))) from rfl] at h
    cases hr : dumpCompactList (y :: ys) with
    | error e => rw [hr] at h; cases h
    | ok cr =>
      rw [hr] at h
      injection h with h
      exact ⟨cx, cr, rfl, rfl, h.symm⟩

theorem dumpCompactKvs_one (kv : String × PyVal) (body : List Char)
    (h : dumpCompactKvs [kv] = .ok body) :
    ∃ cv, dumpCompact kv.2 = .ok cv ∧
      body = quoteWith escCharRaw kv.1 ++ (':' :: cv) := by
  rw [dumpCompactKvs] at h
  cases hx : dumpCompact kv.2 with
  | error e => rw [hx] at h; cases h
  | ok cv =>
    rw [hx] at h
    injection h with h
    exact ⟨cv, rfl, h.symm⟩

theorem dumpCompactKvs_cons2 (kv kv2 : String × PyVal) (kvs : List (String × PyVal))
    (body : List Char) (h : dumpCompactKvs (kv :: kv2 :: kvs) = .ok body) :
    ∃ cv cr, dumpCompact kv.2 = .ok cv ∧ dumpCompactKvs (kv2 :: kvs) = .ok cr ∧
      body = quoteWith escCharRaw kv.1 ++ (':' :: cv) ++ (',' :: cr) := by
  rw [dumpCompactKvs] at h
  cases hx : dumpCompact kv.2 with
  | error e => rw [hx] at h; cases h
  | ok cv =>
    rw [hx, show ((Except.ok cv : Except String (List Char)) >>= fun cv =>
      (dumpCompactKvs (kv2 :: kvs) >>= fun rest =>
        pure (quoteWith escCharRaw kv.1 ++ (':' :: cv) ++ (',' :: rest)))) =
      (dumpCompactKvs (kv2 :: kvs) >>= fun rest =>
        pure (quoteWith escCharRaw kv.1 ++ (':' :: cv) ++ (',' :: rest))) from rfl] at h
    cases hr : dumpCompactKvs (kv2 :: kvs) with
    | error e => rw [hr] at h; cases h
    | ok cr =>
      rw [hr] at h
      injection h with h
      exact ⟨cv, cr, rfl, rfl, h.symm⟩

theorem parseValue_lbrack (f : Nat) (cs : List Char) (c2 : Char) (r2 : List Char)
    (hskip : skipWs cs = c2 :: r2) (hne : c2 ≠ ']') :
    parseValue (f + 1) ('[' :: cs) =
      (do
        let (xs, rest3) ← parseElems f cs
        pure (PyVal.list xs, rest3)) := by
  show (match skipWs cs with
    | [] => (.error "Expecting value" : Except String (PyVal × List Char))
    | c2 :: rest2 =>
      if c2 = ']' then .ok (.list [], rest2)
      else do
        let (xs, rest3) ← parseElems f cs
        pure (.list xs, rest3)) = _
  rw [hskip]
  dsimp only
  rw [if_neg hne]

theorem parseValue_lbrace (f : Nat) (cs : List Char) (c2 : Char) (r2 : List Char)
    (hskip : skipWs cs = c2 :: r2) (hne : c2 ≠ '}') :
    parseValue (f + 1) ('{' :: cs) =
      (do
        let (kvs, rest3) ← parseMembers f cs
        pure (PyVal.dict (pyDictFold [] kvs), rest3)) := by
  show (match skipWs cs with
    | [] => (.error "Expecting value" : Except String (PyVal × List Char))
    | c2 :: rest2 =>
      if c2 = '}' then .ok (.dict [], rest2)
      else do
        let (kvs, rest3) ← parseMembers f cs
        pure (.dict (pyDictFold [] kvs), rest3)) = _
  rw [hskip]
  dsimp only
  rw [if_neg hne]

theorem parseValue_digit (f : Nat) (d : Char) (l : List Char) (hd : d.isDigit = true) :
    parseValue (f + 1) (d :: l) = parseNumber (d :: l) := by
  obtain ⟨h1, h2, h3, h4, h5, h6, hws, _, _, _, _⟩ := isDigit_facts hd
  rw [parseValue.eq_def]
  dsimp only
  rw [skipWs_not_ws d l hws]
  dsimp only
  rw [if_neg h1, if_neg h2, if_neg h3, if_neg h4, if_neg h5, if_neg h6]

theorem parseValue_minus (f : Nat) (l : List Char) :
    parseValue (f + 1) ('-' :: l) = parseNumber ('-' :: l) := rfl

theorem parseElems_succ (f : Nat) (cs : List Char) :
    parseElems (f + 1) cs =
      (do
        let (v, rest) ← parseValue f cs
        match skipWs rest with
        | [] => .error "Expecting comma"
        | c :: rest2 =>
          if c = ',' then do
            let (vs, rest3) ← parseElems f rest2
            pure (v :: vs, rest3)
          else if c = ']' then pure ([v], rest2)
          else .error "Expecting comma") := rfl

theorem parseMembers_succ (f : Nat) (cs : List Char) :
    parseMembers (f + 1) cs =
      (match skipWs cs with
       | [] => .error "Expecting property name"
       | c :: rest =>
         if c = '"' then do
           let (k, rest1) ← parseStringBody rest
           match skipWs rest1 with
           | [] => .error "Expecting colon"
           | c2 :: rest2 =>
             if c2 = ':' then do
               let (v, rest3) ← parseValue f rest2
               match skipWs rest3 with
               | [] => .error "Expecting comma"
               | c3 :: rest4 =>
                 if c3 = ',' then do
                   let (kvs, rest5) ← parseMembers f rest4
                   pure ((⟨k⟩, v) :: kvs, rest5)
                 else if c3 = '}' then pure ([(⟨k⟩, v)], rest4)
                 else .error "Expecting comma"
             else .error "Expecting colon"
         else .error "Expecting property name") := rfl

theorem ok_bind {α β : Type} (a : α) (f : α → Except String β) :
    ((Except.ok a : Except String α) >>= f) = f a := rfl

mutual
theorem parseValue_dump : ∀ (v : PyVal) (cs : List Char), jsonWf v = true →
    dumpCompact v = .ok cs → ∀ (fuel : Nat) (rest : List Char), cs.length ≤ fuel →
    goodNumFollow rest → parseValue fuel (cs ++ rest) = .ok (v, rest)
  | .null, cs, hwf, hd, fuel, rest, hfuel, hgf => by
    have hcs : "null".data = cs := by injection hd
    subst hcs
    cases fuel with
    | zero => exact absurd hfuel (by decide)
    | succ f => rfl
  | .bool true, cs, hwf, hd, fuel, rest, hfuel, hgf => by
    have hcs : "true".data = cs := by injection hd
    subst hcs
    cases fuel with
    | zero => exact absurd hfuel (by decide)
    | succ f => rfl
  | .bool false, cs, hwf, hd, fuel, rest, hfuel, hgf => by
    have hcs : "false".data = cs := by injection hd
    subst hcs
    cases fuel with
    | zero => exact absurd hfuel (by decide)
    | succ f => rfl
  | .int n, cs, hwf, hd, fuel, rest, hfuel, hgf => by
    have hcs : intChars n = cs := by
      rw [show dumpCompact (.int n) = .ok (intChars n) from rfl] at hd
      injection hd
    subst hcs
    cases fuel with
    | zero =>
      have h1 : 0 < (intChars n).length := List.length_pos.mpr (intChars_ne_nil n)
      omega
    | succ f =>
      by_cases hn : n < 0
      · have hi : intChars n = '-' :: natChars n.natAbs := by
          unfold intChars
          rw [if_pos hn]
        rw [hi, List.cons_append, parseValue_minus, ← List.cons_append, ← hi]
        exact parseNumber_intChars n rest hgf
      · have hi : intChars n = natChars n.toNat := by
          unfold intChars
          rw [if_neg hn]
        cases hnc : natChars n.toNat with
        | nil => exact absurd hnc (natChars_ne_nil _)
        | cons d ds =>
          have hdd : d.isDigit = true := natChars_head_digit _ hnc
          rw [hi, hnc, List.cons_append, parseValue_digit f d _ hdd, ← List.cons_append,
            ← hnc, ← hi]
          exact parseNumber_intChars n rest hgf
  | .str s, cs, hwf, hd, fuel, rest, hfuel, hgf => by
    have hcs : quoteWith escCharRaw s = cs := by injection hd
    subst hcs
    cases fuel with
    | zero =>
      have h1 : 0 < (quoteWith escCharRaw s).length := by
        rw [quoteWith]
        simp
      omega
    | succ f =>
      show parseValue (f + 1) (('"' :: (s.data.flatMap escCharRaw ++ ['"'])) ++ rest) = _
      rw [List.cons_append, List.append_assoc]
      rw [show ((['"'] : List Char) ++ rest) = '"' :: rest from rfl]
      rw [show parseValue (f + 1) ('"' :: (s.data.flatMap escCharRaw ++ ('"' :: rest))) =
        (do
          let (s2, rest2) ← parseStringBody (s.data.flatMap escCharRaw ++ ('"' :: rest))
          pure (PyVal.str ⟨s2⟩, rest2)) from rfl]
      rw [parseStringBody_escBody]
      rfl
  | .list [], cs, hwf, hd, fuel, rest, hfuel, hgf => by
    have hcs : ('[' :: (([] : List Char) ++ [']'])) = cs := by injection hd
    subst hcs
    cases fuel with
    | zero => exact absurd hfuel (by decide)
    | succ f => rfl
  | .list (x :: xs), cs, hwf, hd, fuel, rest, hfuel, hgf => by
    obtain ⟨body, hb, hcs⟩ := dumpCompact_list_eq (x :: xs) cs hd
    subst hcs
    cases fuel with
    | zero => simp at hfuel
    | succ f =>
      obtain ⟨cx, tl, hx, hbody⟩ := dumpCompactList_cons_structure x xs body hb
      have hcx_ne : cx ≠ [] := fun h => dumpCompact_ne_nil x (h ▸ hx)
      obtain ⟨hc, cxs, hcx⟩ : ∃ hc cxs, cx = hc :: cxs := by
        cases cx with
        | nil => exact absurd rfl hcx_ne
        | cons a b => exact ⟨a, b, rfl⟩
      have hdh := dumpCompact_head x hc cxs (by rw [← hcx]; exact hx)
      obtain ⟨hws, hrb, _⟩ := dumpHead_props hdh
      have hskip : skipWs (body ++ (']' :: rest)) = hc :: (cxs ++ tl ++ (']' :: rest)) := by
        rw [hbody, hcx]
        rw [show ((hc :: cxs) ++ tl) ++ (']' :: rest) = hc :: (cxs ++ tl ++ (']' :: rest)) from
          by simp]
        exact skipWs_not_ws hc _ hws
      rw [show ('[' :: (body ++ [']'])) ++ rest = '[' :: (body ++ (']' :: rest)) from by simp]
      rw [parseValue_lbrack f _ hc _ hskip hrb]
      rw [parseElems_dump (x :: xs) body (by simp) hwf hb f rest (by
        simp at hfuel
        omega)]
      rfl
  | .dict [], cs, hwf, hd, fuel, rest, hfuel, hgf => by
    have hcs : ('{' :: (([] : List Char) ++ ['}'])) = cs := by injection hd
    subst hcs
    cases fuel with
    | zero => exact absurd hfuel (by decide)
    | succ f => rfl
  | .dict (kv :: kvs), cs, hwf, hd, fuel, rest, hfuel, hgf => by
    obtain ⟨body, hb, hcs⟩ := dumpCompact_dict_eq (kv :: kvs) cs hd
    subst hcs
    have hwf' : (decide (((kv :: kvs).map Prod.fst).Nodup) && jsonWfKvs (kv :: kvs)) = true :=
      hwf
    rw [Bool.and_eq_true] at hwf'
    have hnd : ((kv :: kvs).map Prod.fst).Nodup := of_decide_eq_true hwf'.1
    cases fuel with
    | zero => simp at hfuel
    | succ f =>
      obtain ⟨tl, hbody⟩ := dumpCompactKvs_cons_structure kv kvs body hb
      have hskip : skipWs (body ++ ('}' :: rest)) = '"' :: (tl ++ ('}' :: rest)) := by
        rw [hbody, List.cons_append]
        exact skipWs_not_ws '"' _ (by decide)
      rw [show ('{' :: (body ++ ['}'])) ++ rest = '{' :: (body ++ ('}' :: rest)) from by simp]
      rw [parseValue_lbrace f _ '"' _ hskip (by decide)]
      rw [parseMembers_dump (kv :: kvs) body (by simp) hwf'.2 hb f rest (by
        simp at hfuel
        omega)]
      show Except.ok (PyVal.dict (pyDictFold [] (kv :: kvs)), rest) = _
      rw [pyDictFold_nil_eq (kv :: kvs) hnd]
  | .obj tag, cs, hwf, hd, fuel, rest, hfuel, hgf => by cases hd
termination_by v _ _ _ _ _ _ _ => sizeOf v

theorem parseElems_dump : ∀ (xs : List PyVal) (body : List Char), xs ≠ [] →
    jsonWfList xs = true → dumpCompactList xs = .ok body →
    ∀ (fuel : Nat) (rest : List Char), body.length + 1 ≤ fuel →
    parseElems fuel (body ++ (']' :: rest)) = .ok (xs, rest)
  | [], _, hne, _, _, _, _, _ => absurd rfl hne
  | [x], body, hne, hwf, hb, fuel, rest, hfuel => by
    have hx : dumpCompact x = .ok body := hb
    have hwf1 : jsonWf x = true := by
      have h : (jsonWf x && jsonWfList []) = true := hwf
      rw [Bool.and_eq_true] at h
      exact h.1
    cases fuel with
    | zero => omega
    | succ f =>
      rw [parseElems_succ]
      rw [parseValue_dump x body hwf1 hx f (']' :: rest) (by omega) (goodNumFollow_rbrack rest)]
      rfl
  | x :: y :: ys, body, hne, hwf, hb, fuel, rest, hfuel => by
    obtain ⟨cx, cr, hx, hr, hbody⟩ := dumpCompactList_cons2 x y ys body hb
    have hwf1 : (jsonWf x && jsonWfList (y :: ys)) = true := hwf
    rw [Bool.and_eq_true] at hwf1
    subst hbody
    have hlen : (cx ++ (',' :: cr)).length = cx.length + cr.length + 1 := by
      simp
      omega
    cases fuel with
    | zero => omega
    | succ f =>
      rw [parseElems_succ]
      rw [show (cx ++ (',' :: cr)) ++ (']' :: rest) = cx ++ (',' :: (cr ++ (']' :: rest))) from
        by simp]
      rw [parseValue_dump x cx hwf1.1 hx f (',' :: (cr ++ (']' :: rest))) (by omega)
        (goodNumFollow_comma _)]
      rw [ok_bind]
      dsimp only
      rw [skipWs_not_ws ',' _ (by decide)]
      dsimp only
      rw [if_pos rfl]
      rw [parseElems_dump (y :: ys) cr (by simp) hwf1.2 hr f rest (by omega)]
      rfl
termination_by xs _ _ _ _ _ _ _ => sizeOf xs

theorem parseMembers_dump : ∀ (kvs : List (String × PyVal)) (body : List Char), kvs ≠ [] →
    jsonWfKvs kvs = true → dumpCompactKvs kvs = .ok body →
    ∀ (fuel : Nat) (rest : List Char), body.length + 1 ≤ fuel →
    parseMembers fuel (body ++ ('}' :: rest)) = .ok (kvs, rest)
  | [], _, hne, _, _, _, _, _ => absurd rfl hne
  | [(k, v)], body, hne, hwf, hb, fuel, rest, hfuel => by
    obtain ⟨cv, hv, hbody⟩ := dumpCompactKvs_one (k, v) body hb
    dsimp only at hv hbody
    have hwf1 : jsonWf v = true := by
      have h : (jsonWf v && jsonWfKvs []) = true := hwf
      rw [Bool.and_eq_true] at h
      exact h.1
    subst hbody
    have hlen : (quoteWith escCharRaw k ++ (':' :: cv)).length
        = (quoteWith escCharRaw k).length + cv.length + 1 := by
      simp
      omega
    cases fuel with
    | zero => omega
    | succ f =>
      rw [parseMembers_succ]
      rw [show (quoteWith escCharRaw k ++ (':' :: cv)) ++ ('}' :: rest)
          = '"' :: (k.data.flatMap escCharRaw ++ ('"' :: (':' :: (cv ++ ('}' :: rest))))) from by
        rw [quoteWith]
        simp]
      rw [skipWs_not_ws '"' _ (by decide)]
      dsimp only
      rw [if_pos rfl]
      rw [parseStringBody_escBody k.data (':' :: (cv ++ ('}' :: rest)))]
      rw [ok_bind]
      dsimp only
      rw [skipWs_not_ws ':' _ (by decide)]
      dsimp only
      rw [if_pos rfl]
      rw [parseValue_dump v cv hwf1 hv f ('}' :: rest) (by omega) (goodNumFollow_rbrace rest)]
      rw [ok_bind]
      dsimp only
      rw [skipWs_not_ws '}' _ (by decide)]
      dsimp only
      rw [if_neg (by decide : ¬('}' = ',')), if_pos rfl]
      rfl
  | (k, v) :: kv2 :: kvs, body, hne, hwf, hb, fuel, rest, hfuel => by
    obtain ⟨cv, cr, hv, hr, hbody⟩ := dumpCompactKvs_cons2 (k, v) kv2 kvs body hb
    dsimp only at hv hbody
    have hwf1 : (jsonWf v && jsonWfKvs (kv2 :: kvs)) = true := hwf
    rw [Bool.and_eq_true] at hwf1
    subst hbody
    have hlen : (quoteWith escCharRaw k ++ (':' :: cv) ++ (',' :: cr)).length
        = (quoteWith escCharRaw k).length + cv.length + cr.length + 2 := by
      simp
      omega
    cases fuel with
    | zero => omega
    | succ f =>
      rw [parseMembers_succ]
      rw [show (quoteWith escCharRaw k ++ (':' :: cv) ++ (',' :: cr)) ++ ('}' :: rest)
          = '"' :: (k.data.flatMap escCharRaw ++
            ('"' :: (':' :: (cv ++ (',' :: (cr ++ ('}' :: rest))))))) from by
        rw [quoteWith]
        simp]
      rw [skipWs_not_ws '"' _ (by decide)]
      dsimp only
      rw [if_pos rfl]
      rw [parseStringBody_escBody k.data (':' :: (cv ++ (',' :: (cr ++ ('}' :: rest)))))]
      rw [ok_bind]
      dsimp only
      rw [skipWs_not_ws ':' _ (by decide)]
      dsimp only
      rw [if_pos rfl]
      rw [parseValue_dump v cv hwf1.1 hv f (',' :: (cr ++ ('}' :: rest))) (by omega)
        (goodNumFollow_comma _)]
      rw [ok_bind]
      dsimp only
      rw [skipWs_not_ws ',' _ (by decide)]
      dsimp only
      rw [if_pos rfl]
      rw [parseMembers_dump (kv2 :: kvs) cr (by simp) hwf1.2 hr f rest (by omega)]
      rfl
termination_by kvs _ _ _ _ _ _ _ => sizeOf kvs
end

theorem json_loads_dumpCompact (v : PyVal) (cs : List Char) (hwf : jsonWf v = true)
    (hd : dumpCompact v = .ok cs) : json_loads ⟨cs⟩ = .ok v := by
  unfold json_loads
  dsimp only
  have hp : parseValue (cs.length + 1) (cs ++ []) = .ok (v, []) :=
    parseValue_dump v cs hwf hd (cs.length + 1) [] (by omega) goodNumFollow_nil
  rw [List.append_nil] at hp
  rw [hp]
  rfl

theorem mapM_map_ok {α β : Type} (g : α → β) (f : β → Except String α)
    (h : ∀ x, f (g x) = .ok x) : ∀ (l : List α), (l.map g).mapM f = .ok l := by
  intro l
  induction l with
  | nil => rfl
  | cons x xs ih =>
    rw [List.map_cons, List.mapM_cons, h x,
      show ((Except.ok x : Except String α) >>= fun b =>
        ((xs.map g).mapM f >>= fun bs => pure (b :: bs))) =
        ((xs.map g).mapM f >>= fun bs => pure (x :: bs)) from rfl,
      ih]
    rfl

theorem chatMessage_validate_json (m : ChatMessage) :
    chatMessage_validate (chatMessageJson m) = .ok m := by
  cases m with
  | mk role content refusal => cases content <;> cases refusal <;> rfl

theorem chatChoice_validate_json (c : ChatChoice) :
    chatChoice_validate (chatChoiceJson c) = .ok c := by
  cases c with
  | mk fr ix msg =>
    show (chatMessage_validate (chatMessageJson msg) >>= fun m =>
      pure (⟨fr, ix, m⟩ : ChatChoice)) = _
    rw [chatMessage_validate_json]
    rfl

theorem chatCompletion_validate_json (c : ChatCompletion) :
    chatCompletion_validate (chatCompletionJson c) = .ok c := by
  cases c with
  | mk id choices created model =>
    show ((choices.map chatChoiceJson).mapM chatChoice_validate >>= fun chs =>
      pure (⟨id, chs, created, model⟩ : ChatCompletion)) = _
    rw [mapM_map_ok chatChoiceJson chatChoice_validate chatChoice_validate_json choices]
    rfl

theorem parsedMessage_validate_json (m : ParsedMessage) :
    parsedMessage_validate (parsedMessageJson m) = .ok m := by
  cases m with
  | mk role content refusal parsed => cases content <;> cases refusal <;> rfl

theorem parsedChoice_validate_json (c : ParsedChoice) :
    parsedChoice_validate (parsedChoiceJson c) = .ok c := by
  cases c with
  | mk fr ix msg =>
    show (parsedMessage_validate (parsedMessageJson msg) >>= fun m =>
      pure (⟨fr, ix, m⟩ : ParsedChoice)) = _
    rw [parsedMessage_validate_json]
    rfl

theorem parsedChatCompletion_validate_json (c : ParsedChatCompletion) :
    parsedChatCompletion_validate (parsedChatCompletionJson c) = .ok c := by
  cases c with
  | mk id choices created model =>
    show ((choices.map parsedChoiceJson).mapM parsedChoice_validate >>= fun chs =>
      pure (⟨id, chs, created, model⟩ : ParsedChatCompletion)) = _
    rw [mapM_map_ok parsedChoiceJson parsedChoice_validate parsedChoice_validate_json choices]
    rfl

theorem revalidate_choice_id (rf : SchemaModel) (ch : ParsedChoice)
    (h : pyTruthy ch.message.refusal = false →
      rf.validate ch.message.parsed = .ok ch.message.parsed) :
    revalidate_choice rf ch = .ok ch := by
  unfold revalidate_choice
  cases ht : pyTruthy ch.message.refusal with
  | true => rw [if_pos rfl]
  | false =>
    rw [if_neg (by simp), h ht]

/-- **C8** (serialization round-trip): any completion result the upstream call
successfully produces — its pydantic serialization well-formed JSON and the
request's schema validating its own parsed payloads to themselves — when
serialized to the cached text form and deserialized back through the hit path
(including the structured re-validation step) yields the identical completion:
identical choice contents, and identical parsed objects on every non-refusal
choice. -/
theorem round_trip (co : Completion) (rf : SchemaModel) (s : String)
    (hwf : jsonWf (completionJsonVal co) = true)
    (hjson : completion_json co = .ok s)
    (hschema : ∀ c, co = .structured c → ∀ ch ∈ c.choices,
      pyTruthy ch.message.refusal = false →
      rf.validate ch.message.parsed = .ok ch.message.parsed) :
    hit_reconstruct
      (match co with
       | .structured _ => some rf
       | .unstructured _ => none) s = .ok co := by
  unfold completion_json at hjson
  cases hdc : dumpCompact (completionJsonVal co) with
  | error e => rw [hdc] at hjson; cases hjson
  | ok cs =>
    rw [hdc] at hjson
    injection hjson with hjson
    subst hjson
    have hload : json_loads ⟨cs⟩ = .ok (completionJsonVal co) :=
      json_loads_dumpCompact _ cs hwf hdc
    cases co with
    | unstructured c =>
      show ((match json_loads ⟨cs⟩ with
        | .error e => .error (.serialization e)
        | .ok v =>
          match chatCompletion_validate v with
          | .error e => .error (.validation e)
          | .ok c2 => .ok (.unstructured c2)) : Except GatewayError Completion) = _
      rw [hload]
      dsimp only
      rw [show completionJsonVal (.unstructured c) = chatCompletionJson c from rfl,
        chatCompletion_validate_json]
    | structured c =>
      show ((match json_loads ⟨cs⟩ with
        | .error e => .error (.serialization e)
        | .ok v =>
          match parsedChatCompletion_validate v with
          | .error e => .error (.validation e)
          | .ok completion =>
            match completion.choices.mapM (revalidate_choice rf) with
            | .error e => .error (.validation e)
            | .ok chs => .ok (.structured { completion with choices := chs })) :
        Except GatewayError Completion) = _
      rw [hload]
      dsimp only
      rw [show completionJsonVal (.structured c) = parsedChatCompletionJson c from rfl,
        parsedChatCompletion_validate_json]
      dsimp only
      rw [mapM_ok_of_forall (fun ch hch =>
        revalidate_choice_id rf ch (hschema c rfl ch hch))]

theorem round_trip_witness :
    hit_reconstruct (some sampleSchema) sampleCached =
      .ok (.structured sampleParsed) :=
  round_trip (.structured sampleParsed) sampleSchema sampleCached (by rfl) (by rfl)
    (by
      intro c hc ch hch href
      injection hc with hc
      subst hc
      rcases hch with _ | ⟨_, hch⟩
      · rfl
      · rcases hch with _ | ⟨_, hch⟩
        · exact absurd href (by decide)
        · cases hch)

end PaperExplainer
